import Mathlib

/-!
Verification of the character-card codec core of the `character-card-editor`
repository (`src/utils/types.ts` and `src/utils/pngUtils.ts`).

The TypeScript code operates on JavaScript runtime values (parsed JSON), so the
embedding is built over an inductive model `JsValue` of JavaScript values.
Modelling decisions, stated once here:

* JavaScript numbers are modelled as `Int`.  Every number the codec inspects is
  an integer timestamp or length; `NaN` and fractional values are outside the
  model.
* JavaScript exceptions (`TypeError` from property access on `null`/`undefined`,
  `JSON.parse` failures, `atob` failures, ...) are modelled with `Except Unit`.
* Property lookup and the `in` operator are modelled on own keys; prototype
  chain members and numeric array indices are not modelled — none of the keys
  the codec inspects (`spec`, `data`, `group_only_greetings`, `assets`,
  `creator_notes`, `system_prompt`, ...) is an index or a standard prototype
  member.
* Function values cannot appear in the model; a spoofed `spec` marker carrying
  a `toString` function is represented by an object-valued `spec`, which is
  what the strict-equality check observes.
-/

/-- JavaScript runtime values as seen by the codec: the JSON universe plus
`undefined`.  Objects are ordered association lists (JS objects preserve
insertion order, which `JSON.stringify` observes). -/
inductive JsValue where
  | vUndefined : JsValue
  | vNull : JsValue
  | vBool (b : Bool) : JsValue
  | vNum (n : Int) : JsValue
  | vStr (s : String) : JsValue
  | vArr (elems : List JsValue) : JsValue
  | vObj (fields : List (String × JsValue)) : JsValue

/-- First-match own-key lookup on an object's field list. -/
def lookupKey (fields : List (String × JsValue)) (k : String) : Option JsValue :=
  match fields with
  | [] => none
  | (k', v) :: rest => if k' == k then some v else lookupKey rest k

/-- JavaScript truthiness (`!x` is `!jsTruthy x`); `NaN` is outside the model. -/
def jsTruthy : JsValue → Bool
  | .vUndefined => false
  | .vNull => false
  | .vBool b => b
  | .vNum n => n != 0
  | .vStr s => s != ""
  | .vArr _ => true
  | .vObj _ => true

/-- `typeof x === 'object'`: true exactly for `null`, arrays and plain objects. -/
def typeofIsObject : JsValue → Bool
  | .vNull => true
  | .vArr _ => true
  | .vObj _ => true
  | _ => false

/-- Property read `x[k]`: throws (`TypeError`) on `null`/`undefined`; returns
`undefined` for missing keys and for primitive receivers.  Array reads model
only the `length` property (no numeric key the codec reads). -/
def jsGet (v : JsValue) (k : String) : Except Unit JsValue :=
  match v with
  | .vUndefined => .error ()
  | .vNull => .error ()
  | .vObj fields => .ok ((lookupKey fields k).getD .vUndefined)
  | .vArr elems => .ok (if k == "length" then .vNum elems.length else .vUndefined)
  | .vStr s => .ok (if k == "length" then .vNum s.length else .vUndefined)
  | _ => .ok .vUndefined

/-- The `k in x` operator: own-key membership on objects, `length` on arrays,
`TypeError` on non-objects (including `null`). -/
def jsIn (k : String) (v : JsValue) : Except Unit Bool :=
  match v with
  | .vObj fields => .ok (fields.any (fun p => p.1 == k))
  | .vArr _ => .ok (k == "length")
  | _ => .error ()

/-- Strict equality of a value against a string literal (`x === "lit"`).
No coercion: only the identical string compares equal. -/
def strictEqStr (v : JsValue) (lit : String) : Bool :=
  match v with
  | .vStr s => s == lit
  | _ => false

/-- `SpecVersion` from `types.ts`. -/
inductive SpecVersion where
  | v1 : SpecVersion
  | v2 : SpecVersion
  | v3 : SpecVersion
deriving Repr, DecidableEq

/-- The `chara_card_v2` spec marker. -/
def specV2Tag : String := "chara_card_v2"

/-- The `chara_card_v3` spec marker. -/
def specV3Tag : String := "chara_card_v3"

/-- Short-circuiting `||` over possibly-throwing boolean computations. -/
def jsOr (a b : Except Unit Bool) : Except Unit Bool := do
  if ← a then return true else b

/-- `detectCardVersion` from `types.ts`, embedded over `JsValue`.  The
`Except` layer records the one way the source can throw: when the object has a
`data` field equal to `null`, `typeof null === 'object'` passes the guard and
the subsequent `'group_only_greetings' in data` raises a `TypeError`. -/
def detectCardVersion (card : JsValue) : Except Unit SpecVersion := do
  if !(jsTruthy card) || !(typeofIsObject card) then return .v1
  let spec ← jsGet card "spec"
  if strictEqStr spec specV3Tag then return .v3
  if strictEqStr spec specV2Tag then return .v2
  let hasData ← jsIn "data" card
  if hasData then do
    let data ← jsGet card "data"
    if typeofIsObject data then do
      if ← jsOr (jsIn "group_only_greetings" data) (jsIn "assets" data) then return .v3
      if ← jsOr (jsIn "creator_notes" data) (jsIn "system_prompt" data) then return .v2
  return .v1

/-- Rule 4 of the specification's detection rules: an object with a `data`
sub-object is Full when `data` contains `group_only_greetings` or `assets`,
Extended when it contains `creator_notes` or `system_prompt`. -/
def dataRule (fields : List (String × JsValue)) : SpecVersion :=
  match lookupKey fields "data" with
  | some (.vObj ds) =>
    if ds.any (fun p => p.1 == "group_only_greetings") || ds.any (fun p => p.1 == "assets") then .v3
    else if ds.any (fun p => p.1 == "creator_notes") || ds.any (fun p => p.1 == "system_prompt") then .v2
    else .v1
  | _ => .v1

/-- Reference definition of version detection, following the specification's
five ordered first-match-wins rules (§4.3) word for word: (1) non-object input
is Legacy; (2) `spec` strictly equal to the Full marker is Full; (3) `spec`
strictly equal to the Extended marker is Extended; (4) a `data` sub-object is
classified by its markers; (5) otherwise Legacy.  This is the spec-side
definition that claim C4 compares against the code-side `detectCardVersion`. -/
def detectRules (card : JsValue) : SpecVersion :=
  match card with
  | .vObj fields =>
    if strictEqStr ((lookupKey fields "spec").getD .vUndefined) specV3Tag then .v3
    else if strictEqStr ((lookupKey fields "spec").getD .vUndefined) specV2Tag then .v2
    else dataRule fields
  | _ => .v1

/-- The throwing input class of `detectCardVersion`: an object whose `data`
field is `null` reaches `'group_only_greetings' in null`, a `TypeError`. -/
def noNullDataField : JsValue → Prop
  | .vObj fields => lookupKey fields "data" ≠ some .vNull
  | _ => True

/-! ## The unified editor document and the converters (`types.ts`) -/

/-- `EditorCardData` from `types.ts`: the unified in-memory document.  String
and list fields follow the TypeScript interface; values the codec never
inspects structurally (`extensions`, `character_book`, array elements,
multilingual note values) stay opaque `JsValue`s.  An absent
`character_book` is the value `undefined`, as in JavaScript. -/
@[ext]
structure EditorCardData where
  name : String
  description : String
  personality : String
  scenario : String
  first_mes : String
  mes_example : String
  creator_notes : String
  system_prompt : String
  post_history_instructions : String
  alternate_greetings : List JsValue
  tags : List JsValue
  creator : String
  character_version : String
  extensions : JsValue
  character_book : JsValue
  assets : List JsValue
  nickname : String
  creator_notes_multilingual : List (String × JsValue)
  source : List JsValue
  group_only_greetings : List JsValue
  creation_date : Option Int
  modification_date : Option Int

/-- `createEmptyEditorData` from `types.ts`. -/
def createEmptyEditorData : EditorCardData where
  name := ""
  description := ""
  personality := ""
  scenario := ""
  first_mes := ""
  mes_example := ""
  creator_notes := ""
  system_prompt := ""
  post_history_instructions := ""
  alternate_greetings := []
  tags := []
  creator := ""
  character_version := "1.0"
  extensions := .vObj []
  character_book := .vUndefined
  assets := []
  nickname := ""
  creator_notes_multilingual := []
  source := []
  group_only_greetings := []
  creation_date := none
  modification_date := none

/-- `editorDataToV1` from `types.ts`: the Legacy wire object. -/
def editorDataToV1 (d : EditorCardData) : JsValue :=
  .vObj [("name", .vStr d.name), ("description", .vStr d.description),
         ("personality", .vStr d.personality), ("scenario", .vStr d.scenario),
         ("first_mes", .vStr d.first_mes), ("mes_example", .vStr d.mes_example)]

/-- The `data` member of the Extended wire object built by `editorDataToV2`.
`character_book` is written unconditionally, exactly like the object literal
in the source (the key is present even when the value is `undefined`). -/
def v2DataFields (d : EditorCardData) : List (String × JsValue) :=
  [("name", .vStr d.name), ("description", .vStr d.description),
   ("personality", .vStr d.personality), ("scenario", .vStr d.scenario),
   ("first_mes", .vStr d.first_mes), ("mes_example", .vStr d.mes_example),
   ("creator_notes", .vStr d.creator_notes), ("system_prompt", .vStr d.system_prompt),
   ("post_history_instructions", .vStr d.post_history_instructions),
   ("alternate_greetings", .vArr d.alternate_greetings), ("tags", .vArr d.tags),
   ("creator", .vStr d.creator), ("character_version", .vStr d.character_version),
   ("extensions", d.extensions), ("character_book", d.character_book)]

/-- `editorDataToV2` from `types.ts`: the Extended wire object. -/
def editorDataToV2 (d : EditorCardData) : JsValue :=
  .vObj [("spec", .vStr specV2Tag), ("spec_version", .vStr "2.0"),
         ("data", .vObj (v2DataFields d))]

/-- The `data` member of the Full wire object built by `editorDataToV3`: the
base literal (through `group_only_greetings`) followed by the six conditional
assignments, in source order.  Each optional Full field is present only when
the editor value is truthy: non-empty list, non-empty string, non-zero
number. -/
def v3DataFields (d : EditorCardData) : List (String × JsValue) :=
  [("name", .vStr d.name), ("description", .vStr d.description),
   ("personality", .vStr d.personality), ("scenario", .vStr d.scenario),
   ("first_mes", .vStr d.first_mes), ("mes_example", .vStr d.mes_example),
   ("creator_notes", .vStr d.creator_notes), ("system_prompt", .vStr d.system_prompt),
   ("post_history_instructions", .vStr d.post_history_instructions),
   ("alternate_greetings", .vArr d.alternate_greetings), ("tags", .vArr d.tags),
   ("creator", .vStr d.creator), ("character_version", .vStr d.character_version),
   ("extensions", d.extensions), ("character_book", d.character_book),
   ("group_only_greetings", .vArr d.group_only_greetings)]
  ++ (if d.assets.length > 0 then [("assets", .vArr d.assets)] else [])
  ++ (if d.nickname != "" then [("nickname", .vStr d.nickname)] else [])
  ++ (if d.creator_notes_multilingual.length > 0 then
        [("creator_notes_multilingual", .vObj d.creator_notes_multilingual)] else [])
  ++ (if d.source.length > 0 then [("source", .vArr d.source)] else [])
  ++ (match d.creation_date with
      | some n => if n != 0 then [("creation_date", .vNum n)] else []
      | none => [])
  ++ (match d.modification_date with
      | some n => if n != 0 then [("modification_date", .vNum n)] else []
      | none => [])

/-- `editorDataToV3` from `types.ts`: the Full wire object. -/
def editorDataToV3 (d : EditorCardData) : JsValue :=
  .vObj [("spec", .vStr specV3Tag), ("spec_version", .vStr "3.0"),
         ("data", .vObj (v3DataFields d))]

/-- Read `v || dflt` into a string-typed editor field.  Falsy wire values give
the default; a truthy non-string value cannot inhabit the string-typed field
(the TypeScript source casts unchecked JSON, so an ill-typed editor state is
unrepresentable here and the read fails). -/
def strOr (v : JsValue) (dflt : String) : Except Unit String :=
  match v with
  | .vStr s => .ok (if s == "" then dflt else s)
  | .vUndefined => .ok dflt
  | .vNull => .ok dflt
  | .vBool false => .ok dflt
  | .vNum 0 => .ok dflt
  | _ => .error ()

/-- Read `v || []` into a list-typed editor field; same convention as `strOr`
for truthy non-array values. -/
def arrOr (v : JsValue) : Except Unit (List JsValue) :=
  match v with
  | .vArr es => .ok es
  | .vUndefined => .ok []
  | .vNull => .ok []
  | .vBool false => .ok []
  | .vNum 0 => .ok []
  | .vStr "" => .ok []
  | _ => .error ()

/-- Read `v || {}` into a map-typed editor field (`creator_notes_multilingual`);
same convention as `strOr` for truthy non-object values. -/
def recOr (v : JsValue) : Except Unit (List (String × JsValue)) :=
  match v with
  | .vObj fs => .ok fs
  | .vUndefined => .ok []
  | .vNull => .ok []
  | .vBool false => .ok []
  | .vNum 0 => .ok []
  | .vStr "" => .ok []
  | _ => .error ()

/-- Read `v || {}` into the opaque `extensions` field: the field keeps any
truthy value unchanged and replaces falsy values by the empty object. -/
def extOr (v : JsValue) : JsValue :=
  if jsTruthy v then v else .vObj []

/-- Read an optional numeric field assigned directly (`creation_date`):
`undefined` is absence, a number is itself, anything else would make the
number-typed editor field ill-typed, so the read fails. -/
def optNum (v : JsValue) : Except Unit (Option Int) :=
  match v with
  | .vUndefined => .ok none
  | .vNum n => .ok (some n)
  | _ => .error ()

/-- `cardToEditorData` from `types.ts`, embedded over wire values.  The three
branches follow the source: no `spec` key means Legacy; then the two strict
marker comparisons; an unrecognized marker falls through to the empty
document.  `'spec' in card` throws on primitive inputs, and the Extended/Full
branches throw when `data` is missing (`v2.data.name` on `undefined`). -/
def cardToEditorData (card : JsValue) : Except Unit EditorCardData := do
  let base := createEmptyEditorData
  let hasSpec ← jsIn "spec" card
  if !hasSpec then do
    let name ← strOr (← jsGet card "name") ""
    let description ← strOr (← jsGet card "description") ""
    let personality ← strOr (← jsGet card "personality") ""
    let scenario ← strOr (← jsGet card "scenario") ""
    let first_mes ← strOr (← jsGet card "first_mes") ""
    let mes_example ← strOr (← jsGet card "mes_example") ""
    return { base with
      name := name, description := description, personality := personality,
      scenario := scenario, first_mes := first_mes, mes_example := mes_example }
  let spec ← jsGet card "spec"
  if strictEqStr spec specV2Tag then do
    let data ← jsGet card "data"
    let name ← strOr (← jsGet data "name") ""
    let description ← strOr (← jsGet data "description") ""
    let personality ← strOr (← jsGet data "personality") ""
    let scenario ← strOr (← jsGet data "scenario") ""
    let first_mes ← strOr (← jsGet data "first_mes") ""
    let mes_example ← strOr (← jsGet data "mes_example") ""
    let creator_notes ← strOr (← jsGet data "creator_notes") ""
    let system_prompt ← strOr (← jsGet data "system_prompt") ""
    let post_history_instructions ← strOr (← jsGet data "post_history_instructions") ""
    let alternate_greetings ← arrOr (← jsGet data "alternate_greetings")
    let tags ← arrOr (← jsGet data "tags")
    let creator ← strOr (← jsGet data "creator") ""
    let character_version ← strOr (← jsGet data "character_version") "1.0"
    let extensions := extOr (← jsGet data "extensions")
    let character_book ← jsGet data "character_book"
    return { base with
      name := name, description := description, personality := personality,
      scenario := scenario, first_mes := first_mes, mes_example := mes_example,
      creator_notes := creator_notes, system_prompt := system_prompt,
      post_history_instructions := post_history_instructions,
      alternate_greetings := alternate_greetings, tags := tags,
      creator := creator, character_version := character_version,
      extensions := extensions, character_book := character_book }
  if strictEqStr spec specV3Tag then do
    let data ← jsGet card "data"
    let name ← strOr (← jsGet data "name") ""
    let description ← strOr (← jsGet data "description") ""
    let personality ← strOr (← jsGet data "personality") ""
    let scenario ← strOr (← jsGet data "scenario") ""
    let first_mes ← strOr (← jsGet data "first_mes") ""
    let mes_example ← strOr (← jsGet data "mes_example") ""
    let creator_notes ← strOr (← jsGet data "creator_notes") ""
    let system_prompt ← strOr (← jsGet data "system_prompt") ""
    let post_history_instructions ← strOr (← jsGet data "post_history_instructions") ""
    let alternate_greetings ← arrOr (← jsGet data "alternate_greetings")
    let tags ← arrOr (← jsGet data "tags")
    let creator ← strOr (← jsGet data "creator") ""
    let character_version ← strOr (← jsGet data "character_version") "1.0"
    let extensions := extOr (← jsGet data "extensions")
    let character_book ← jsGet data "character_book"
    let assets ← arrOr (← jsGet data "assets")
    let nickname ← strOr (← jsGet data "nickname") ""
    let creator_notes_multilingual ← recOr (← jsGet data "creator_notes_multilingual")
    let source ← arrOr (← jsGet data "source")
    let group_only_greetings ← arrOr (← jsGet data "group_only_greetings")
    let creation_date ← optNum (← jsGet data "creation_date")
    let modification_date ← optNum (← jsGet data "modification_date")
    return { base with
      name := name, description := description, personality := personality,
      scenario := scenario, first_mes := first_mes, mes_example := mes_example,
      creator_notes := creator_notes, system_prompt := system_prompt,
      post_history_instructions := post_history_instructions,
      alternate_greetings := alternate_greetings, tags := tags,
      creator := creator, character_version := character_version,
      extensions := extensions, character_book := character_book,
      assets := assets, nickname := nickname,
      creator_notes_multilingual := creator_notes_multilingual,
      source := source, group_only_greetings := group_only_greetings,
      creation_date := creation_date, modification_date := modification_date }
  return base

/-- The fields of a Unified Document that the Legacy wire schema represents:
everything else reset to the defaults. -/
def maskV1 (e : EditorCardData) : EditorCardData :=
  { createEmptyEditorData with
    name := e.name, description := e.description, personality := e.personality,
    scenario := e.scenario, first_mes := e.first_mes, mes_example := e.mes_example }

/-- The fields of a Unified Document that the Extended wire schema represents. -/
def maskV2 (e : EditorCardData) : EditorCardData :=
  { createEmptyEditorData with
    name := e.name, description := e.description, personality := e.personality,
    scenario := e.scenario, first_mes := e.first_mes, mes_example := e.mes_example,
    creator_notes := e.creator_notes, system_prompt := e.system_prompt,
    post_history_instructions := e.post_history_instructions,
    alternate_greetings := e.alternate_greetings, tags := e.tags,
    creator := e.creator, character_version := e.character_version,
    extensions := e.extensions, character_book := e.character_book }

/-- The fields the Full wire schema represents: all of them. -/
def maskV3 (e : EditorCardData) : EditorCardData :=
  { createEmptyEditorData with
    name := e.name, description := e.description, personality := e.personality,
    scenario := e.scenario, first_mes := e.first_mes, mes_example := e.mes_example,
    creator_notes := e.creator_notes, system_prompt := e.system_prompt,
    post_history_instructions := e.post_history_instructions,
    alternate_greetings := e.alternate_greetings, tags := e.tags,
    creator := e.creator, character_version := e.character_version,
    extensions := e.extensions, character_book := e.character_book,
    assets := e.assets, nickname := e.nickname,
    creator_notes_multilingual := e.creator_notes_multilingual,
    source := e.source, group_only_greetings := e.group_only_greetings,
    creation_date := e.creation_date, modification_date := e.modification_date }

/-- Whether a wire-level value is a plain object (the shape the TypeScript
interface requires of `extensions`). -/
def isObjectValue : JsValue → Bool
  | .vObj _ => true
  | _ => false

/-! ## Text transforms (spec §4.2): base64 and UTF-8

The browser builtins the source composes — `btoa(unescape(encodeURIComponent s))`
to serialize and `decodeURIComponent(escape(atob t))` to deserialize — amount to
"UTF-8 encode then base64" and "base64 decode then UTF-8 decode".  Their code is
not part of the repository, so they are modelled from the spec here. -/

/-- Modelled from the spec: the standard base64 alphabet used by `btoa`/`atob`
(spec §4.2, "the orthogonal base64⇄UTF-8 text transform"). -/
def b64Alphabet : List Char :=
  ("ABCDEFGHIJKLMNOPQRSTUVWXYZabcdefghijklmnopqrstuvwxyz0123456789+/").data

/-- The base64 digit for a 6-bit value. -/
def b64Char (n : Nat) : Char := b64Alphabet.getD n 'A'

/-- Position of a character in a list, used to invert the base64 alphabet. -/
def charIndex : List Char → Char → Option Nat
  | [], _ => none
  | a :: rest, c => if a == c then some 0 else (charIndex rest c).map (· + 1)

/-- The 6-bit value of a base64 digit, `none` for characters outside the
alphabet (`atob` throws on those). -/
def b64ValOf (c : Char) : Option Nat := charIndex b64Alphabet c

/-- Modelled from the spec: base64 encoding of a byte sequence (`btoa`), three
bytes at a time with `=` padding. -/
def b64EncodeChars : List Nat → List Char
  | [] => []
  | [a] => [b64Char (a / 4), b64Char (a % 4 * 16), '=', '=']
  | [a, b] => [b64Char (a / 4), b64Char (a % 4 * 16 + b / 16), b64Char (b % 16 * 4), '=']
  | a :: b :: c :: rest =>
      b64Char (a / 4) :: b64Char (a % 4 * 16 + b / 16) ::
        b64Char (b % 16 * 4 + c / 64) :: b64Char (c % 64) :: b64EncodeChars rest

/-- `btoa` on a byte sequence (the string it receives is latin-1, one byte per
character). -/
def btoaBytes (bs : List Nat) : String := String.mk (b64EncodeChars bs)

/-- Modelled from the spec: base64 decoding (`atob`): groups of four digits,
with the two padded shapes allowed only as the final group; anything else
throws. -/
def b64DecodeChars : List Char → Option (List Nat)
  | [] => some []
  | c1 :: c2 :: c3 :: c4 :: rest =>
    if c3 = '=' then
      if c4 = '=' ∧ rest = [] then do
        let v1 ← b64ValOf c1
        let v2 ← b64ValOf c2
        some [v1 * 4 + v2 / 16]
      else none
    else if c4 = '=' then
      if rest = [] then do
        let v1 ← b64ValOf c1
        let v2 ← b64ValOf c2
        let v3 ← b64ValOf c3
        some [v1 * 4 + v2 / 16, v2 % 16 * 16 + v3 / 4]
      else none
    else do
      let v1 ← b64ValOf c1
      let v2 ← b64ValOf c2
      let v3 ← b64ValOf c3
      let v4 ← b64ValOf c4
      let tail ← b64DecodeChars rest
      some ((v1 * 4 + v2 / 16) :: (v2 % 16 * 16 + v3 / 4) :: (v3 % 4 * 64 + v4) :: tail)
  | _ => none

/-- `atob` on a base64 text, yielding the byte sequence or a thrown error. -/
def atobBytes (s : String) : Except Unit (List Nat) :=
  match b64DecodeChars s.data with
  | some bs => .ok bs
  | none => .error ()

/-- Modelled from the spec: UTF-8 encoding of one Unicode scalar value. -/
def utf8EncodeChar (n : Nat) : List Nat :=
  if n < 128 then [n]
  else if n < 2048 then [192 + n / 64, 128 + n % 64]
  else if n < 65536 then [224 + n / 4096, 128 + n / 64 % 64, 128 + n % 64]
  else [240 + n / 262144, 128 + n / 4096 % 64, 128 + n / 64 % 64, 128 + n % 64]

/-- UTF-8 encoding of a string (the `unescape(encodeURIComponent s)` composite
reads a JavaScript string and produces its UTF-8 bytes). -/
def utf8Encode (s : String) : List Nat :=
  (s.data.map (fun c => utf8EncodeChar c.toNat)).flatten

/-- Whether a byte is a UTF-8 continuation byte. -/
def isCont (b : Nat) : Bool := 128 ≤ b && b < 192

/-- Decode a two-byte UTF-8 sequence whose lead byte is `b`. -/
def utf8Decode2 (b : Nat) : List Nat → Option (Char × List Nat)
  | b2 :: rest =>
    if isCont b2 then
      if 128 ≤ (b - 192) * 64 + (b2 - 128) then
        some (Char.ofNat ((b - 192) * 64 + (b2 - 128)), rest)
      else none
    else none
  | [] => none

/-- Decode a three-byte UTF-8 sequence whose lead byte is `b` (overlong
encodings and surrogate code points rejected). -/
def utf8Decode3 (b : Nat) : List Nat → Option (Char × List Nat)
  | b2 :: b3 :: rest =>
    if isCont b2 && isCont b3 then
      if 2048 ≤ (b - 224) * 4096 + (b2 - 128) * 64 + (b3 - 128) ∧
          ¬(55296 ≤ (b - 224) * 4096 + (b2 - 128) * 64 + (b3 - 128) ∧
            (b - 224) * 4096 + (b2 - 128) * 64 + (b3 - 128) < 57344) then
        some (Char.ofNat ((b - 224) * 4096 + (b2 - 128) * 64 + (b3 - 128)), rest)
      else none
    else none
  | _ => none

/-- Decode a four-byte UTF-8 sequence whose lead byte is `b`. -/
def utf8Decode4 (b : Nat) : List Nat → Option (Char × List Nat)
  | b2 :: b3 :: b4 :: rest =>
    if isCont b2 && isCont b3 && isCont b4 then
      if 65536 ≤ (b - 240) * 262144 + (b2 - 128) * 4096 + (b3 - 128) * 64 + (b4 - 128) ∧
          (b - 240) * 262144 + (b2 - 128) * 4096 + (b3 - 128) * 64 + (b4 - 128) < 1114112 then
        some (Char.ofNat ((b - 240) * 262144 + (b2 - 128) * 4096 + (b3 - 128) * 64 + (b4 - 128)),
          rest)
      else none
    else none
  | _ => none

/-- Decode one UTF-8 scalar value from the head of the byte sequence. -/
def utf8DecodeOne : List Nat → Option (Char × List Nat)
  | [] => none
  | b :: rest =>
    if b < 128 then some (Char.ofNat b, rest)
    else if b < 192 then none
    else if b < 224 then utf8Decode2 b rest
    else if b < 240 then utf8Decode3 b rest
    else if b < 248 then utf8Decode4 b rest
    else none

/-- Fuelled UTF-8 decoding loop; the fuel is at least the byte count, and one
unit is spent per decoded character. -/
def utf8DecodeAux : Nat → List Nat → Option (List Char)
  | _, [] => some []
  | 0, _ :: _ => none
  | fuel + 1, b :: rest =>
    match utf8DecodeOne (b :: rest) with
    | some (c, rest2) => (utf8DecodeAux fuel rest2).map (fun cs => c :: cs)
    | none => none

/-- Modelled from the spec: strict UTF-8 decoding (the
`decodeURIComponent(escape t)` composite, which throws `URIError` on malformed
sequences): rejects stray or missing continuation bytes, overlong encodings,
surrogate code points and values beyond U+10FFFF. -/
def utf8DecodeChars (bs : List Nat) : Option (List Char) :=
  utf8DecodeAux bs.length bs

/-- UTF-8 decoding of a byte sequence to a string. -/
def utf8Decode (bs : List Nat) : Except Unit String :=
  match utf8DecodeChars bs with
  | some cs => .ok (String.mk cs)
  | none => .error ()

/-- The UTF-8 byte sequence of a character list. -/
def utf8EncodeList (cs : List Char) : List Nat :=
  (cs.map (fun c => utf8EncodeChar c.toNat)).flatten

/-! ## JSON (spec §4.5: "parses as JSON" / `JSON.stringify`)

`JSON.parse`/`JSON.stringify` are platform builtins, modelled from the spec.
Model restrictions, both unreachable from data the codec itself writes:
numbers are integers (no fraction/exponent), and strings cannot contain lone
surrogates (Lean strings are sequences of scalar values). -/

/-- The `"` character. -/
def quoteChar : Char := Char.ofNat 34

/-- The `\` character. -/
def backslashChar : Char := Char.ofNat 92

/-- The `{` character. -/
def lbraceChar : Char := Char.ofNat 123

/-- The `}` character. -/
def rbraceChar : Char := Char.ofNat 125

/-- Lower-case hexadecimal digit. -/
def hexDigit (n : Nat) : Char :=
  if n < 10 then Char.ofNat (48 + n) else Char.ofNat (87 + n)

/-- How `JSON.stringify` emits one character inside a string literal: `"`,
`\`, the five short escapes, `\u00xx` for other control characters, and the
character itself otherwise. -/
def jsonEscapeChar (c : Char) : List Char :=
  if c = quoteChar then [backslashChar, quoteChar]
  else if c = backslashChar then [backslashChar, backslashChar]
  else if c = Char.ofNat 8 then [backslashChar, 'b']
  else if c = Char.ofNat 9 then [backslashChar, 't']
  else if c = Char.ofNat 10 then [backslashChar, 'n']
  else if c = Char.ofNat 12 then [backslashChar, 'f']
  else if c = Char.ofNat 13 then [backslashChar, 'r']
  else if c.toNat < 32 then
    [backslashChar, 'u', '0', '0', hexDigit (c.toNat / 16), hexDigit (c.toNat % 16)]
  else [c]

/-- A JSON string literal for `s`. -/
def jsonStringChars (s : String) : List Char :=
  quoteChar :: (s.data.map jsonEscapeChar).flatten ++ [quoteChar]

/-- Decimal digits of a natural number, most significant first. -/
def natDigits (n : Nat) : List Char :=
  if h : n < 10 then [Char.ofNat (48 + n)]
  else natDigits (n / 10) ++ [Char.ofNat (48 + n % 10)]
decreasing_by exact Nat.div_lt_self (by omega) (by omega)

/-- Decimal representation of an integer. -/
def intChars (i : Int) : List Char :=
  if i < 0 then '-' :: natDigits i.natAbs else natDigits i.toNat

/-- Comma-separated concatenation of pre-rendered pieces. -/
def commaJoin : List (List Char) → List Char
  | [] => []
  | [p] => p
  | p :: ps => p ++ ',' :: commaJoin ps

mutual

/-- Modelled from the spec: `JSON.stringify` rendered to characters.  `none`
is the `undefined` result (for an `undefined` top-level value); inside arrays
`undefined` renders as `null`, and object members with `undefined` values are
dropped. -/
def jsonValueChars : JsValue → Option (List Char)
  | .vUndefined => none
  | .vNull => some ("null").data
  | .vBool b => some (if b then ("true").data else ("false").data)
  | .vNum n => some (intChars n)
  | .vStr s => some (jsonStringChars s)
  | .vArr es => some ('[' :: commaJoin (jsonElemPieces es) ++ [']'])
  | .vObj fs => some (lbraceChar :: commaJoin (jsonMemberPieces fs) ++ [rbraceChar])

/-- Rendered array elements (`undefined` renders as `null`). -/
def jsonElemPieces : List JsValue → List (List Char)
  | [] => []
  | e :: es =>
    ((jsonValueChars e).getD (("null").data)) :: jsonElemPieces es

/-- Rendered object members; members whose value renders as `undefined` are
dropped. -/
def jsonMemberPieces : List (String × JsValue) → List (List Char)
  | [] => []
  | (k, v) :: fs =>
    match jsonValueChars v with
    | none => jsonMemberPieces fs
    | some vc => (jsonStringChars k ++ ':' :: vc) :: jsonMemberPieces fs

end

/-- `JSON.stringify` as a string-valued partial function. -/
def jsonStringify (v : JsValue) : Option String := (jsonValueChars v).map String.mk

/-- JSON insignificant whitespace. -/
def wsChar (c : Char) : Bool :=
  c == ' ' || c == Char.ofNat 9 || c == Char.ofNat 10 || c == Char.ofNat 13

/-- Skip insignificant whitespace. -/
def skipWs : List Char → List Char
  | [] => []
  | c :: cs => if wsChar c then skipWs cs else c :: cs

/-- Value of one hexadecimal digit. -/
def hexVal (c : Char) : Option Nat :=
  if 48 ≤ c.toNat && c.toNat ≤ 57 then some (c.toNat - 48)
  else if 97 ≤ c.toNat && c.toNat ≤ 102 then some (c.toNat - 87)
  else if 65 ≤ c.toNat && c.toNat ≤ 70 then some (c.toNat - 55)
  else none

/-- Combine four hexadecimal digits. -/
def hex4 (h1 h2 h3 h4 : Char) : Option Nat :=
  match hexVal h1, hexVal h2, hexVal h3, hexVal h4 with
  | some a, some b, some c, some d => some (a * 4096 + b * 256 + c * 16 + d)
  | _, _, _, _ => none

/-- The single-character JSON string escapes. -/
def simpleEscape (e : Char) : Option Char :=
  if e = quoteChar then some quoteChar
  else if e = backslashChar then some backslashChar
  else if e = '/' then some '/'
  else if e = 'b' then some (Char.ofNat 8)
  else if e = 't' then some (Char.ofNat 9)
  else if e = 'n' then some (Char.ofNat 10)
  else if e = 'f' then some (Char.ofNat 12)
  else if e = 'r' then some (Char.ofNat 13)
  else none

/-- Parse the remainder of a JSON string literal (after the opening quote):
returns the contents and the input after the closing quote.  Model
restriction: a `\uXXXX` escape denoting a surrogate is rejected (Lean strings
hold scalar values only; the serializer emits astral characters raw, never as
surrogate pairs). -/
def parseStringRest : List Char → Option (List Char × List Char)
  | [] => none
  | c :: cs =>
    if c = quoteChar then some ([], cs)
    else if c = backslashChar then
      match cs with
      | 'u' :: h1 :: h2 :: h3 :: h4 :: cs3 =>
        match hex4 h1 h2 h3 h4 with
        | some n =>
          if 55296 ≤ n ∧ n < 57344 then none
          else (parseStringRest cs3).map (fun p => (Char.ofNat n :: p.1, p.2))
        | none => none
      | e :: cs2 =>
        match simpleEscape e with
        | some d => (parseStringRest cs2).map (fun p => (d :: p.1, p.2))
        | none => none
      | [] => none
    else if c.toNat < 32 then none
    else (parseStringRest cs).map (fun p => (c :: p.1, p.2))

/-- Decimal digit test. -/
def isDigitChar (c : Char) : Bool := 48 ≤ c.toNat && c.toNat ≤ 57

/-- Greedily parse decimal digits, accumulating left to right. -/
def parseNatAcc (acc : Nat) : List Char → Nat × List Char
  | [] => (acc, [])
  | c :: cs =>
    if isDigitChar c then parseNatAcc (acc * 10 + (c.toNat - 48)) cs
    else (acc, c :: cs)

/-- Parse a JSON number into an integer.  Model restriction: a fraction or
exponent part is rejected rather than parsed as a float. -/
def parseIntChars : List Char → Option (Int × List Char)
  | [] => none
  | c :: cs =>
    if c = '-' then
      match cs with
      | c2 :: cs2 =>
        if isDigitChar c2 then
          let p := parseNatAcc (c2.toNat - 48) cs2
          match p.2 with
          | e :: _ => if e = '.' || e = 'e' || e = 'E' then none else some (-(p.1 : Int), p.2)
          | [] => some (-(p.1 : Int), p.2)
        else none
      | [] => none
    else if isDigitChar c then
      let p := parseNatAcc (c.toNat - 48) cs
      match p.2 with
      | e :: _ => if e = '.' || e = 'e' || e = 'E' then none else some ((p.1 : Int), p.2)
      | [] => some ((p.1 : Int), p.2)
    else none

mutual

/-- Modelled from the spec: a recursive-descent JSON value parser
(`JSON.parse`).  The fuel argument bounds the nesting depth; each recursive
step into a composite value consumes one unit. -/
def parseValue : Nat → List Char → Option (JsValue × List Char)
  | 0, _ => none
  | fuel + 1, cs =>
    match skipWs cs with
    | [] => none
    | c :: cs' =>
      if c = quoteChar then
        (parseStringRest cs').map (fun p => (.vStr (String.mk p.1), p.2))
      else if c = lbraceChar then
        (parseMembers fuel (skipWs cs') true).map (fun p => (.vObj p.1, p.2))
      else if c = '[' then
        (parseElems fuel (skipWs cs') true).map (fun p => (.vArr p.1, p.2))
      else if c = 't' then
        match cs' with
        | 'r' :: 'u' :: 'e' :: r => some (.vBool true, r)
        | _ => none
      else if c = 'f' then
        match cs' with
        | 'a' :: 'l' :: 's' :: 'e' :: r => some (.vBool false, r)
        | _ => none
      else if c = 'n' then
        match cs' with
        | 'u' :: 'l' :: 'l' :: r => some (.vNull, r)
        | _ => none
      else if c = '-' || isDigitChar c then
        (parseIntChars (c :: cs')).map (fun p => (.vNum p.1, p.2))
      else none

/-- Parse object members after `{` (whitespace already skipped); `first` is
true when no member has been parsed yet, so `}` may close the object. -/
def parseMembers : Nat → List Char → Bool → Option (List (String × JsValue) × List Char)
  | 0, _, _ => none
  | _ + 1, [], _ => none
  | fuel + 1, c :: cs, first =>
    if c = rbraceChar && first then some ([], cs)
    else if c = quoteChar then
      match parseStringRest cs with
      | none => none
      | some (key, cs2) =>
        match skipWs cs2 with
        | [] => none
        | c3 :: cs3 =>
          if c3 = ':' then
            match parseValue fuel cs3 with
            | none => none
            | some (v, cs4) =>
              match skipWs cs4 with
              | [] => none
              | c5 :: cs5 =>
                if c5 = ',' then
                  (parseMembers fuel (skipWs cs5) false).map (fun p =>
                    ((String.mk key, v) :: p.1, p.2))
                else if c5 = rbraceChar then some ([(String.mk key, v)], cs5)
                else none
          else none
    else none

/-- Parse array elements after `[` (whitespace already skipped); `first` is
true when `]` may close the array. -/
def parseElems : Nat → List Char → Bool → Option (List JsValue × List Char)
  | 0, _, _ => none
  | _ + 1, [], _ => none
  | fuel + 1, c :: cs, first =>
    if c = ']' && first then some ([], cs)
    else
      match parseValue fuel (c :: cs) with
      | none => none
      | some (v, cs2) =>
        match skipWs cs2 with
        | [] => none
        | c3 :: cs3 =>
          if c3 = ',' then (parseElems fuel (skipWs cs3) false).map (fun p => (v :: p.1, p.2))
          else if c3 = ']' then some ([v], cs3)
          else none

end

/-- Modelled from the spec: `JSON.parse`.  Trailing non-whitespace is an
error; the fuel is ample because nesting depth never exceeds the text
length. -/
def jsonParse (s : String) : Except Unit JsValue :=
  match parseValue (s.length + 1) s.data with
  | some (v, rest) =>
    match skipWs rest with
    | [] => .ok v
    | _ :: _ => .error ()
  | none => .error ()


mutual

/-- No-undefined predicate on wire values (`JSON.parse` never produces
`undefined`, and `JSON.stringify` drops or rewrites it). -/
def jsonPureV : JsValue → Bool
  | .vUndefined => false
  | .vNull => true
  | .vBool _ => true
  | .vNum _ => true
  | .vStr _ => true
  | .vArr es => jsonPureElems es
  | .vObj fs => jsonPureMembers fs

/-- `jsonPureV` on every array element. -/
def jsonPureElems : List JsValue → Bool
  | [] => true
  | e :: es => jsonPureV e && jsonPureElems es

/-- `jsonPureV` on every member value. -/
def jsonPureMembers : List (String × JsValue) → Bool
  | [] => true
  | (_, v) :: fs => jsonPureV v && jsonPureMembers fs

end

mutual

/-- Parser fuel needed for a value: one unit per nesting step. -/
def jsonSize : JsValue → Nat
  | .vArr es => 1 + jsonESize es
  | .vObj fs => 1 + jsonMSize fs
  | _ => 1

/-- Parser fuel needed for an element list. -/
def jsonESize : List JsValue → Nat
  | [] => 1
  | e :: es => 1 + max (jsonSize e) (jsonESize es)

/-- Parser fuel needed for a member list. -/
def jsonMSize : List (String × JsValue) → Nat
  | [] => 1
  | (_, v) :: fs => 1 + max (jsonSize v) (jsonMSize fs)

end

/-- The rendered characters of a value (empty for `undefined`). -/
def jsonCharsOf (v : JsValue) : List Char := (jsonValueChars v).getD []

/-- What may legally follow a JSON number: end of input or a delimiter that is
neither a digit nor a fraction/exponent marker. -/
def numBoundary : List Char → Prop
  | [] => True
  | c :: _ => isDigitChar c = false ∧ c ≠ '.' ∧ c ≠ 'e' ∧ c ≠ 'E'



/-! ## The PNG chunk layer (`pngUtils.ts` and its chunk libraries) -/

/-- `PngChunk` from `pngUtils.ts`: a chunk is a four-character type tag and
its payload bytes (naturals below 256 in well-formed streams). -/
structure PngChunk where
  name : String
  data : List Nat
deriving Repr, DecidableEq

/-- The fixed eight-byte signature that starts a chunk stream. -/
def pngSignature : List Nat := [137, 80, 78, 71, 13, 10, 26, 10]

/-- Big-endian four-byte encoding of a 32-bit integer. -/
def be32 (n : Nat) : List Nat :=
  [n / 16777216 % 256, n / 65536 % 256, n / 256 % 256, n % 256]

/-- Read a big-endian 32-bit integer from the first four bytes. -/
def readBe32 : List Nat → Nat
  | a :: b :: c :: d :: _ => ((a * 256 + b) * 256 + c) * 256 + d
  | _ => 0

/-- One bit of the CRC-32 feedback shift (reflected polynomial). -/
def crcStep (acc : Nat) : Nat :=
  if acc % 2 = 1 then Nat.xor (acc / 2) 3988292384 else acc / 2

/-- Fold one byte into a CRC-32 accumulator: xor, then eight shift steps. -/
def crcUpdate (acc b : Nat) : Nat :=
  crcStep (crcStep (crcStep (crcStep (crcStep (crcStep (crcStep (crcStep
    (Nat.xor acc b))))))))

/-- Modelled from the spec: the CRC-32 trailer the writer recomputes for
each chunk (§4.1; the permissive reader never checks it). -/
def crc32 (bs : List Nat) : Nat :=
  Nat.xor (bs.foldl crcUpdate 4294967295) 4294967295

/-- A chunk name's characters as bytes. -/
def nameBytes (s : String) : List Nat := s.data.map Char.toNat

/-- Modelled from the spec: the serialized form of one chunk: length,
type tag, payload, CRC-32 of tag and payload (§4.1). -/
def encodeChunk (ch : PngChunk) : List Nat :=
  be32 ch.data.length ++ nameBytes ch.name ++ ch.data ++
    be32 (crc32 (nameBytes ch.name ++ ch.data))

/-- Modelled from the spec: `Write(chunks)`: the signature, then each
chunk's serialized form in the given order (§4.1). -/
def encodeChunks (chunks : List PngChunk) : List Nat :=
  pngSignature ++ (chunks.map encodeChunk).flatten

/-- Four payload bytes as a chunk name. -/
def bytesToName (bs : List Nat) : String := String.mk (bs.map Char.ofNat)

/-- Modelled from the spec: the chunk walk of `Parse(bytes)` (§4.1): read
a four-byte big-endian length, a four-byte tag, the payload and the
(unchecked) checksum trailer, and advance; exhausted input ends the walk
and a declared length that overruns the remaining bytes fails.  Each step
consumes at least twelve bytes, so the byte count is ample fuel. -/
def extractChunksAux : Nat → List Nat → Option (List PngChunk)
  | _, [] => some []
  | 0, _ => none
  | fuel + 1, bs =>
    if 12 + readBe32 bs ≤ bs.length then
      match extractChunksAux fuel (bs.drop (12 + readBe32 bs)) with
      | none => none
      | some chunks =>
        some ({ name := bytesToName ((bs.drop 4).take 4),
                data := (bs.drop 8).take (readBe32 bs) } :: chunks)
    else none

/-- Modelled from the spec: `Parse(bytes)` (§4.1): verify the signature
prefix, then walk the chunks; `none` is the thrown `MalformedStream`. -/
def extractChunks (bs : List Nat) : Option (List PngChunk) :=
  if bs.take 8 = pngSignature then extractChunksAux bs.length (bs.drop 8)
  else none

/-- Modelled from the spec: `EncodeText(keyword, text)` (§4.2): a chunk
tagged `tEXt` whose payload is the keyword bytes, a NUL separator and the
text bytes. -/
def textEncode (keyword text : String) : PngChunk :=
  { name := "tEXt",
    data := keyword.data.map Char.toNat ++ 0 :: text.data.map Char.toNat }

/-- Modelled from the spec: `DecodeText` (§4.2): split the payload at the
first NUL byte; a payload with no NUL byte is an error (the decoder
throws). -/
def textDecode (data : List Nat) : Except Unit (String × String) :=
  match data.dropWhile (fun b => b != 0) with
  | [] => .error ()
  | _ :: t =>
    .ok (String.mk ((data.takeWhile (fun b => b != 0)).map Char.ofNat),
      String.mk (t.map Char.ofNat))

/-- `ExtractedCard` from `pngUtils.ts`. -/
structure ExtractedCard where
  card : JsValue
  detectedVersion : SpecVersion

/-- The payload decoding both scan loops apply to an embedded text:
`decodeURIComponent(escape(atob(text)))` — base64 to bytes, bytes read as
UTF-8 — followed by `JSON.parse`; every stage may throw. -/
def decodeCardText (txt : String) : Except Unit JsValue := do
  let bytes ← atobBytes txt
  let s ← utf8Decode bytes
  jsonParse s

/-- The first `for` loop of `extractCardFromPng`: scan every `tEXt` chunk
for keyword `ccv3`.  `text.decode` throws out of the loop on a payload
with no NUL separator, as do the base64/UTF-8/JSON stages on a hit. -/
def findCcv3 : List PngChunk → Except Unit (Option JsValue)
  | [] => .ok none
  | ch :: rest =>
    if ch.name = "tEXt" then
      match textDecode ch.data with
      | .error _ => .error ()
      | .ok (kw, txt) =>
        if kw = "ccv3" then do
          let parsed ← decodeCardText txt
          .ok (some parsed)
        else findCcv3 rest
    else findCcv3 rest

/-- The second `for` loop of `extractCardFromPng`: scan for keyword
`chara`, decode the payload, run the version detector, and apply the
`version === 'v2' || parsed.spec === 'chara_card_v2'` test; the right
operand's property access throws when `parsed` is `null`. -/
def findChara : List PngChunk → Except Unit (Option ExtractedCard)
  | [] => .ok none
  | ch :: rest =>
    if ch.name = "tEXt" then
      match textDecode ch.data with
      | .error _ => .error ()
      | .ok (kw, txt) =>
        if kw = "chara" then do
          let parsed ← decodeCardText txt
          let version ← detectCardVersion parsed
          let isV2 ←
            if version = SpecVersion.v2 then pure true
            else do
              let sp ← jsGet parsed "spec"
              pure (strictEqStr sp specV2Tag)
          if isV2 then .ok (some { card := parsed, detectedVersion := .v2 })
          else .ok (some { card := parsed, detectedVersion := .v1 })
        else findChara rest
    else findChara rest

/-- `extractCardFromPng` from `pngUtils.ts`: parse the chunks, scan for a
`ccv3` chunk, then for a `chara` chunk; the surrounding `try`/`catch`
turns every thrown error into `null`, and finding nothing is also
`null`. -/
def extractCardFromPng (bytes : List Nat) : Option ExtractedCard :=
  match extractChunks bytes with
  | none => none
  | some chunks =>
    match (do
      match ← findCcv3 chunks with
      | some parsed =>
        (Except.ok (some { card := parsed, detectedVersion := .v3 }) :
          Except Unit (Option ExtractedCard))
      | none => findChara chunks) with
    | .error _ => none
    | .ok r => r

/-- The chunk filter of `embedCardInPng`: drop `tEXt` chunks whose decoded
keyword is `chara` or `ccv3`; a chunk whose payload fails to decode is
kept (the `catch` branch returns `true`), as is every non-`tEXt`
chunk. -/
def keepChunk (ch : PngChunk) : Bool :=
  if ch.name = "tEXt" then
    match textDecode ch.data with
    | .error _ => true
    | .ok (kw, _) => !(kw == "chara") && !(kw == "ccv3")
  else true

/-- The projection and chunk keyword `embedCardInPng` chooses for a target
version (`v1`/`v2` write `chara`, the `else` branch writes `ccv3`). -/
def projectForVersion (d : EditorCardData) (version : SpecVersion) :
    JsValue × String :=
  match version with
  | .v1 => (editorDataToV1 d, "chara")
  | .v2 => (editorDataToV2 d, "chara")
  | .v3 => (editorDataToV3 d, "ccv3")

/-- The new text chunk `embedCardInPng` builds: the projected card
serialized (`JSON.stringify`; an `undefined` result would be coerced to
the string `"undefined"` downstream), UTF-8 encoded
(`encodeURIComponent`/`unescape`), base64 encoded (`btoa`), and wrapped
as a text chunk under the chosen keyword. -/
def cardChunkOf (d : EditorCardData) (version : SpecVersion) : PngChunk :=
  textEncode (projectForVersion d version).2
    (btoaBytes (utf8Encode
      ((jsonStringify (projectForVersion d version).1).getD "undefined")))

/-- `embedCardInPng` from `pngUtils.ts`: parse the chunks (a parse failure
escapes as a rejected promise), filter out existing card chunks, splice
the new text chunk in before the first `IEND` chunk if any
(`findIndex`/`splice`), else push it at the end, and re-serialize. -/
def embedCardInPng (bytes : List Nat) (d : EditorCardData)
    (version : SpecVersion) : Except Unit (List Nat) :=
  match extractChunks bytes with
  | none => .error ()
  | some chunks =>
    let filteredChunks := chunks.filter keepChunk
    let cardChunk := cardChunkOf d version
    let newChunks :=
      match filteredChunks.findIdx? (fun c => c.name == "IEND") with
      | some i => filteredChunks.take i ++ cardChunk :: filteredChunks.drop i
      | none => filteredChunks ++ [cardChunk]
    .ok (encodeChunks newChunks)

/-- The specification's wording of the filter (§4.5): remove every textual
chunk whose keyword is `chara` or `ccv3`; chunks that fail to decode as
text chunks are conservatively kept.  The spec-side definition claim C8
compares with the code-side `keepChunk`. -/
def specKeep (ch : PngChunk) : Bool :=
  match textDecode ch.data with
  | .ok (kw, _) => !(ch.name == "tEXt" && (kw == "chara" || kw == "ccv3"))
  | .error _ => true

/-- Well-formedness of a chunk for the writer: a four-character tag and a
payload that fits a 32-bit length field. -/
def chunkWF (ch : PngChunk) : Prop :=
  ch.name.data.length = 4 ∧ ch.data.length < 4294967296


mutual

/-- The JSON-normal form of a value: what `JSON.parse` returns after
`JSON.stringify` renders it.  Object members whose value is `undefined`
are dropped and `undefined` array elements render as `null`; everything
else is unchanged. -/
def jnormV : JsValue → JsValue
  | .vArr es => .vArr (jnormElems es)
  | .vObj fs => .vObj (jnormMembers fs)
  | v => v

/-- Normalize array elements: `undefined` becomes `null`. -/
def jnormElems : List JsValue → List JsValue
  | [] => []
  | e :: es =>
    (match e with
     | .vUndefined => .vNull
     | _ => jnormV e) :: jnormElems es

/-- Normalize object members: `undefined`-valued members are dropped. -/
def jnormMembers : List (String × JsValue) → List (String × JsValue)
  | [] => []
  | (k, v) :: fs =>
    match v with
    | .vUndefined => jnormMembers fs
    | _ => (k, jnormV v) :: jnormMembers fs

end

/-- A `character_book` value survives the wire round trip: it is either
absent (`undefined`, dropped by the serializer and read back as
`undefined`) or pure JSON. -/
def okCb : JsValue → Bool
  | .vUndefined => true
  | v => jsonPureV v

/-- The opaque editor fields a projection to `version` serializes are pure
JSON (so nothing inside them is dropped or rewritten on the wire), with
`character_book` allowed to be absent.  The Legacy projection serializes
only strings, so every document qualifies. -/
def editorPureFor (d : EditorCardData) : SpecVersion → Bool
  | .v1 => true
  | .v2 =>
    jsonPureElems d.alternate_greetings && jsonPureElems d.tags &&
      jsonPureV d.extensions && okCb d.character_book
  | .v3 =>
    jsonPureElems d.alternate_greetings && jsonPureElems d.tags &&
      jsonPureV d.extensions && okCb d.character_book &&
      jsonPureElems d.assets && jsonPureElems d.source &&
      jsonPureElems d.group_only_greetings &&
      jsonPureMembers d.creator_notes_multilingual
/-! ## Lemmas about version detection -/

theorem any_eq_lookup_isSome (fields : List (String × JsValue)) (k : String) :
    (fields.any (fun p => p.1 == k)) = (lookupKey fields k).isSome := by
  induction fields with
  | nil => rfl
  | cons p rest ih =>
    obtain ⟨k', v⟩ := p
    by_cases h : k' == k <;> simp [lookupKey, h, ih]

/-- On inputs whose `data` field is not `null`, the code's detection agrees
with the specification's five-rule reference definition. -/
theorem detect_eq_detectRules (card : JsValue) (h : noNullDataField card) :
    detectCardVersion card = .ok (detectRules card) := by
  cases card with
  | vUndefined => rfl
  | vNull => rfl
  | vBool b =>
    cases b <;>
      simp [detectCardVersion, detectRules, jsTruthy, typeofIsObject, pure, Except.pure]
  | vNum n =>
    simp [detectCardVersion, detectRules, jsTruthy, typeofIsObject, pure, Except.pure]
  | vStr s =>
    simp [detectCardVersion, detectRules, jsTruthy, typeofIsObject, pure, Except.pure]
  | vArr es =>
    simp [detectCardVersion, detectRules, jsTruthy, typeofIsObject, jsGet, jsIn,
      strictEqStr, bind, Except.bind, pure, Except.pure]
  | vObj fields =>
    simp only [noNullDataField] at h
    simp only [detectCardVersion, detectRules, jsTruthy, typeofIsObject, jsGet, jsIn,
      bind, Except.bind, pure, Except.pure,
      Bool.not_true, Bool.or_self, Bool.false_or, if_neg, ite_false, ite_true]
    by_cases h3 : strictEqStr ((lookupKey fields "spec").getD .vUndefined) specV3Tag
    · simp [h3, bind, Except.bind, pure, Except.pure]
    by_cases h2 : strictEqStr ((lookupKey fields "spec").getD .vUndefined) specV2Tag
    · simp [h3, h2, bind, Except.bind, pure, Except.pure]
    simp only [h3, h2, bind, Except.bind, pure, Except.pure, if_false, dataRule]
    rw [any_eq_lookup_isSome]
    cases hd : lookupKey fields "data" with
    | none => simp
    | some dv =>
      cases dv with
      | vNull => exact absurd hd h
      | vObj ds =>
        simp only [Option.isSome, Option.getD, typeofIsObject, jsOr, jsIn, bind,
          Except.bind, pure, Except.pure, if_true, ite_true]
        by_cases hg : ds.any (fun p => p.1 == "group_only_greetings")
        · simp [hg]
        by_cases ha : ds.any (fun p => p.1 == "assets")
        · simp [hg, ha]
        by_cases hc : ds.any (fun p => p.1 == "creator_notes")
        · simp [hg, ha, hc]
        by_cases hs : ds.any (fun p => p.1 == "system_prompt")
        · simp [hg, ha, hc, hs]
        simp [hg, ha, hc, hs]
      | vArr es => simp [typeofIsObject, jsOr, jsIn, bind, Except.bind, pure, Except.pure]
      | vUndefined => simp [typeofIsObject]
      | vBool b => simp [typeofIsObject]
      | vNum n => simp [typeofIsObject]
      | vStr s => simp [typeofIsObject]

/-! ## Lemmas about projection followed by lift (claim C1) -/

@[simp] theorem strOr_vStr_empty (s : String) : strOr (.vStr s) "" = .ok s := by
  by_cases h : s = "" <;> simp [strOr, h]

theorem strOr_vStr_ne (s dflt : String) (h : s ≠ "") : strOr (.vStr s) dflt = .ok s := by
  simp [strOr, h]

@[simp] theorem strRead_empty (s : String) : (if s = "" then "" else s) = s := by
  by_cases h : s = "" <;> simp [h]

theorem strRead_dflt (s t : String) (h : s ≠ "") : (if s = "" then t else s) = s := by
  simp [h]

/-- Lifting the Legacy projection restores exactly the Legacy-representable
fields of the document. -/
theorem lift_proj_v1 (d : EditorCardData) :
    cardToEditorData (editorDataToV1 d) = .ok (maskV1 d) := by
  simp [cardToEditorData, editorDataToV1, maskV1, createEmptyEditorData,
    jsIn, jsGet, lookupKey, bind, Except.bind, pure, Except.pure]


set_option maxHeartbeats 2000000 in
theorem lift_proj_v2 (d : EditorCardData) (hcv : d.character_version ≠ "")
    (hext : isObjectValue d.extensions = true) :
    cardToEditorData (editorDataToV2 d) = .ok (maskV2 d) := by
  obtain ⟨fs, hfs⟩ : ∃ fs, d.extensions = .vObj fs := by
    cases hh : d.extensions <;> simp_all [isObjectValue]
  refine congrArg Except.ok ?_
  ext : 1 <;>
    simp [maskV2, createEmptyEditorData, v2DataFields, jsGet, lookupKey, strOr, arrOr,
      extOr, jsTruthy, hfs, strRead_dflt _ _ hcv]

set_option maxHeartbeats 4000000 in
theorem lift_proj_v3 (d : EditorCardData) (hcv : d.character_version ≠ "")
    (hext : isObjectValue d.extensions = true)
    (hcd : d.creation_date ≠ some 0) (hmd : d.modification_date ≠ some 0) :
    cardToEditorData (editorDataToV3 d) = .ok (maskV3 d) := by
  obtain ⟨fs, hfs⟩ : ∃ fs, d.extensions = .vObj fs := by
    cases hh : d.extensions <;> simp_all [isObjectValue]
  by_cases hA : d.assets.length > 0 <;>
  by_cases hN : d.nickname = "" <;>
  by_cases hM : d.creator_notes_multilingual.length > 0 <;>
  by_cases hS : d.source.length > 0 <;>
  rcases hC : d.creation_date with _ | n <;>
  rcases hD : d.modification_date with _ | n' <;>
    (simp_all only [editorDataToV3, v3DataFields, bne_iff_ne, ne_eq,
       Option.some.injEq, eq_self_iff_true, not_true, not_false_iff,
       ite_true, ite_false, if_true, if_false,
       List.append_nil, List.nil_append];
     refine congrArg Except.ok ?_;
     ext : 1 <;>
       simp_all [maskV3, createEmptyEditorData, jsGet, lookupKey, strOr, arrOr,
         recOr, optNum, extOr, jsTruthy, List.length_eq_zero, Nat.not_lt, Nat.le_zero,
         strRead_dflt])

/-! ## Round trips of the text transforms -/

theorem b64ValOf_b64Char : ∀ v : Nat, v < 64 → b64ValOf (b64Char v) = some v := by decide

theorem b64Char_ne_pad : ∀ v : Nat, v < 64 → ¬(b64Char v = Char.ofNat 61) := by decide

theorem b64_roundtrip : ∀ bs : List Nat, (∀ b ∈ bs, b < 256) →
    b64DecodeChars (b64EncodeChars bs) = some bs
  | [], _ => rfl
  | [a], h => by
    have ha : a < 256 := h a (by simp)
    simp only [b64EncodeChars, b64DecodeChars,
      b64ValOf_b64Char (a / 4) (by omega), b64ValOf_b64Char (a % 4 * 16) (by omega),
      bind, Option.bind, Option.some.injEq, List.cons.injEq, and_true,
      if_pos rfl, and_self, if_true, ite_true]
    omega
  | [a, b], h => by
    have ha : a < 256 := h a (by simp)
    have hb : b < 256 := h b (by simp)
    simp only [b64EncodeChars, b64DecodeChars,
      b64ValOf_b64Char (a / 4) (by omega),
      b64ValOf_b64Char (a % 4 * 16 + b / 16) (by omega),
      b64ValOf_b64Char (b % 16 * 4) (by omega),
      b64Char_ne_pad (b % 16 * 4) (by omega),
      bind, Option.bind, Option.some.injEq, List.cons.injEq, and_true,
      if_false, ite_false, if_pos rfl, if_true, ite_true]
    omega
  | a :: b :: c :: rest, h => by
    have ha : a < 256 := h a (by simp)
    have hb : b < 256 := h b (by simp)
    have hc : c < 256 := h c (by simp)
    have ih := b64_roundtrip rest (fun x hx => h x (by simp [hx]))
    simp only [b64EncodeChars, b64DecodeChars,
      b64ValOf_b64Char (a / 4) (by omega),
      b64ValOf_b64Char (a % 4 * 16 + b / 16) (by omega),
      b64ValOf_b64Char (b % 16 * 4 + c / 64) (by omega),
      b64ValOf_b64Char (c % 64) (by omega),
      b64Char_ne_pad (b % 16 * 4 + c / 64) (by omega),
      b64Char_ne_pad (c % 64) (by omega), ih,
      bind, Option.bind, Option.some.injEq, List.cons.injEq, and_true,
      if_false, ite_false]
    omega

theorem utf8DecodeOne_encode (c : Char) (rest : List Nat) :
    utf8DecodeOne (utf8EncodeChar c.toNat ++ rest) = some (c, rest) := by
  have hv : c.toNat < 55296 ∨ (57343 < c.toNat ∧ c.toNat < 1114112) := c.valid
  have hofnat : Char.ofNat c.toNat = c := Char.ofNat_toNat c
  generalize hgen : c.toNat = n at hv hofnat ⊢
  by_cases h1 : n < 128
  · simp only [utf8EncodeChar, if_pos h1, List.cons_append, List.nil_append,
      utf8DecodeOne, if_pos h1, hofnat]
  by_cases h2 : n < 2048
  · have e1 : (192 + n / 64 - 192) * 64 + (128 + n % 64 - 128) = n := by omega
    simp only [utf8EncodeChar, if_neg h1, if_pos h2, List.cons_append, List.nil_append,
      utf8DecodeOne,
      if_neg (show ¬(192 + n / 64 < 128) by omega),
      if_neg (show ¬(192 + n / 64 < 192) by omega),
      if_pos (show 192 + n / 64 < 224 by omega),
      utf8Decode2,
      show isCont (128 + n % 64) = true by simp [isCont]; omega,
      if_true, ite_true, e1, if_pos (show 128 ≤ n by omega), hofnat]
  by_cases h3 : n < 65536
  · have e1 : (224 + n / 4096 - 224) * 4096 + (128 + n / 64 % 64 - 128) * 64 +
        (128 + n % 64 - 128) = n := by omega
    simp only [utf8EncodeChar, if_neg h1, if_neg h2, if_pos h3, List.cons_append,
      List.nil_append, utf8DecodeOne,
      if_neg (show ¬(224 + n / 4096 < 128) by omega),
      if_neg (show ¬(224 + n / 4096 < 192) by omega),
      if_neg (show ¬(224 + n / 4096 < 224) by omega),
      if_pos (show 224 + n / 4096 < 240 by omega),
      utf8Decode3,
      show isCont (128 + n / 64 % 64) = true by simp [isCont]; omega,
      show isCont (128 + n % 64) = true by simp [isCont]; omega,
      Bool.and_self, if_true, ite_true, e1]
    rw [if_pos (show 2048 ≤ n ∧ ¬(55296 ≤ n ∧ n < 57344) by omega), hofnat]
  · have h4 : n < 1114112 := by omega
    have e1 : (240 + n / 262144 - 240) * 262144 + (128 + n / 4096 % 64 - 128) * 4096 +
        (128 + n / 64 % 64 - 128) * 64 + (128 + n % 64 - 128) = n := by omega
    simp only [utf8EncodeChar, if_neg h1, if_neg h2, if_neg h3, List.cons_append,
      List.nil_append, utf8DecodeOne,
      if_neg (show ¬(240 + n / 262144 < 128) by omega),
      if_neg (show ¬(240 + n / 262144 < 192) by omega),
      if_neg (show ¬(240 + n / 262144 < 224) by omega),
      if_neg (show ¬(240 + n / 262144 < 240) by omega),
      if_pos (show 240 + n / 262144 < 248 by omega),
      utf8Decode4,
      show isCont (128 + n / 4096 % 64) = true by simp [isCont]; omega,
      show isCont (128 + n / 64 % 64) = true by simp [isCont]; omega,
      show isCont (128 + n % 64) = true by simp [isCont]; omega,
      Bool.and_self, if_true, ite_true, e1]
    rw [if_pos (show 65536 ≤ n ∧ n < 1114112 by omega), hofnat]

theorem utf8EncodeChar_ne_nil (n : Nat) : utf8EncodeChar n ≠ [] := by
  simp only [utf8EncodeChar]
  by_cases h1 : n < 128 <;> by_cases h2 : n < 2048 <;> by_cases h3 : n < 65536 <;>
    simp [h1, h2, h3]


theorem utf8_aux_roundtrip : ∀ (cs : List Char) (fuel : Nat),
    (utf8EncodeList cs).length ≤ fuel →
    utf8DecodeAux fuel (utf8EncodeList cs) = some cs := by
  intro cs
  induction cs with
  | nil =>
    intro fuel h
    simp [utf8EncodeList, utf8DecodeAux]
  | cons c cs ih =>
    intro fuel h
    have henc0 : utf8EncodeList (c :: cs) = utf8EncodeChar c.toNat ++ utf8EncodeList cs := by
      simp [utf8EncodeList]
    cases henc : utf8EncodeChar c.toNat with
    | nil => exact absurd henc (utf8EncodeChar_ne_nil _)
    | cons b extra =>
      rw [henc0, henc] at h ⊢
      cases fuel with
      | zero => simp at h
      | succ f =>
        have hone := utf8DecodeOne_encode c (utf8EncodeList cs)
        rw [henc] at hone
        simp only [List.cons_append] at hone
        simp only [List.cons_append, utf8DecodeAux]
        rw [show utf8DecodeOne (b :: List.append extra (utf8EncodeList cs)) =
          some (c, utf8EncodeList cs) from hone]
        have hf : (utf8EncodeList cs).length ≤ f := by
          simp only [List.cons_append, List.length_cons, List.length_append] at h
          omega
        simp [ih f hf]

theorem utf8_roundtrip (s : String) : utf8Decode (utf8Encode s) = .ok s := by
  have h1 : utf8Encode s = utf8EncodeList s.data := rfl
  have h2 := utf8_aux_roundtrip s.data (utf8EncodeList s.data).length (le_refl _)
  simp only [utf8Decode, utf8DecodeChars, h1, h2]

/-! ## Lemmas about the JSON codec -/

theorem hexVal_hexDigit : ∀ n : Nat, n < 16 → hexVal (hexDigit n) = some n := by decide

theorem parseStringRest_raw (c : Char) (T : List Char)
    (h1 : ¬(c = quoteChar)) (h2 : ¬(c = backslashChar)) (h8 : ¬(c.toNat < 32)) :
    parseStringRest (c :: T) = (parseStringRest T).map (fun p => (c :: p.1, p.2)) := by
  rw [parseStringRest.eq_def]
  dsimp only
  rw [if_neg h1, if_neg h2, if_neg h8]

theorem parseString_escaped : ∀ (cs : List Char) (rest : List Char),
    parseStringRest ((cs.map jsonEscapeChar).flatten ++ quoteChar :: rest) = some (cs, rest) := by
  intro cs
  induction cs with
  | nil =>
    intro rest
    simp only [List.map_nil, List.flatten_nil, List.nil_append]
    rw [parseStringRest.eq_def]
    dsimp only
    rw [if_pos rfl]
  | cons c cs ih =>
    intro rest
    simp only [List.map_cons, List.flatten_cons, List.append_assoc]
    by_cases h1 : c = quoteChar
    · subst h1
      simp only [show jsonEscapeChar quoteChar = [backslashChar, quoteChar] from rfl,
        List.cons_append, List.nil_append,
        show ∀ T, parseStringRest (backslashChar :: quoteChar :: T) =
          (parseStringRest T).map (fun p => (quoteChar :: p.1, p.2)) from fun T => rfl,
        ih, Option.map_some']
    by_cases h2 : c = backslashChar
    · subst h2
      simp only [show jsonEscapeChar backslashChar = [backslashChar, backslashChar] from rfl,
        List.cons_append, List.nil_append,
        show ∀ T, parseStringRest (backslashChar :: backslashChar :: T) =
          (parseStringRest T).map (fun p => (backslashChar :: p.1, p.2)) from fun T => rfl,
        ih, Option.map_some']
    by_cases h3 : c = Char.ofNat 8
    · subst h3
      simp only [show jsonEscapeChar (Char.ofNat 8) = [backslashChar, 'b'] from rfl,
        List.cons_append, List.nil_append,
        show ∀ T, parseStringRest (backslashChar :: 'b' :: T) =
          (parseStringRest T).map (fun p => (Char.ofNat 8 :: p.1, p.2)) from fun T => rfl,
        ih, Option.map_some']
    by_cases h4 : c = Char.ofNat 9
    · subst h4
      simp only [show jsonEscapeChar (Char.ofNat 9) = [backslashChar, 't'] from rfl,
        List.cons_append, List.nil_append,
        show ∀ T, parseStringRest (backslashChar :: 't' :: T) =
          (parseStringRest T).map (fun p => (Char.ofNat 9 :: p.1, p.2)) from fun T => rfl,
        ih, Option.map_some']
    by_cases h5 : c = Char.ofNat 10
    · subst h5
      simp only [show jsonEscapeChar (Char.ofNat 10) = [backslashChar, 'n'] from rfl,
        List.cons_append, List.nil_append,
        show ∀ T, parseStringRest (backslashChar :: 'n' :: T) =
          (parseStringRest T).map (fun p => (Char.ofNat 10 :: p.1, p.2)) from fun T => rfl,
        ih, Option.map_some']
    by_cases h6 : c = Char.ofNat 12
    · subst h6
      simp only [show jsonEscapeChar (Char.ofNat 12) = [backslashChar, 'f'] from rfl,
        List.cons_append, List.nil_append,
        show ∀ T, parseStringRest (backslashChar :: 'f' :: T) =
          (parseStringRest T).map (fun p => (Char.ofNat 12 :: p.1, p.2)) from fun T => rfl,
        ih, Option.map_some']
    by_cases h7 : c = Char.ofNat 13
    · subst h7
      simp only [show jsonEscapeChar (Char.ofNat 13) = [backslashChar, 'r'] from rfl,
        List.cons_append, List.nil_append,
        show ∀ T, parseStringRest (backslashChar :: 'r' :: T) =
          (parseStringRest T).map (fun p => (Char.ofNat 13 :: p.1, p.2)) from fun T => rfl,
        ih, Option.map_some']
    by_cases h8 : c.toNat < 32
    · have hdiv : c.toNat / 16 < 16 := by omega
      have hmod : c.toNat % 16 < 16 := by omega
      simp only [jsonEscapeChar, if_neg h1, if_neg h2, if_neg h3, if_neg h4, if_neg h5,
        if_neg h6, if_neg h7, if_pos h8, List.cons_append, List.nil_append]
      have hstep : ∀ T, parseStringRest (backslashChar :: 'u' :: '0' :: '0' ::
          hexDigit (c.toNat / 16) :: hexDigit (c.toNat % 16) :: T) =
          match hex4 '0' '0' (hexDigit (c.toNat / 16)) (hexDigit (c.toNat % 16)) with
          | some n =>
            if 55296 ≤ n ∧ n < 57344 then none
            else (parseStringRest T).map (fun p => (Char.ofNat n :: p.1, p.2))
          | none => none := fun T => rfl
      have hx : hex4 '0' '0' (hexDigit (c.toNat / 16)) (hexDigit (c.toNat % 16)) =
          some c.toNat := by
        simp only [hex4, hexVal_hexDigit _ hdiv, hexVal_hexDigit _ hmod,
          show hexVal '0' = some 0 from rfl]
        congr 1
        omega
      simp only [hstep, hx]
      rw [if_neg (show ¬(55296 ≤ c.toNat ∧ c.toNat < 57344) by omega)]
      simp [ih, Char.ofNat_toNat]
    · simp only [jsonEscapeChar, if_neg h1, if_neg h2, if_neg h3, if_neg h4, if_neg h5,
        if_neg h6, if_neg h7, if_neg h8, List.cons_append, List.nil_append]
      rw [parseStringRest_raw c _ h1 h2 h8, ih]
      rfl

theorem isDigitChar_digit : ∀ d : Nat, d < 10 → isDigitChar (Char.ofNat (48 + d)) = true := by
  decide

theorem toNat_digit : ∀ d : Nat, d < 10 → (Char.ofNat (48 + d)).toNat - 48 = d := by decide

theorem digit_ne_minus : ∀ d : Nat, d < 10 → ¬(Char.ofNat (48 + d) = '-') := by decide

theorem natDigits_shape : ∀ n : Nat, ∃ d cs, natDigits n = Char.ofNat (48 + d) :: cs ∧ d < 10 := by
  intro n
  induction n using Nat.strong_induction_on with
  | _ n ih =>
    by_cases h : n < 10
    · exact ⟨n, [], by rw [natDigits.eq_def]; simp [h], h⟩
    · obtain ⟨d, cs, hd, hlt⟩ := ih (n / 10) (Nat.div_lt_self (by omega) (by omega))
      exact ⟨d, cs ++ [Char.ofNat (48 + n % 10)],
        by rw [natDigits.eq_def]; simp [h, hd], hlt⟩

theorem parseNatAcc_digits : ∀ (n : Nat) (acc : Nat) (rest : List Char),
    parseNatAcc acc (natDigits n ++ rest) =
      parseNatAcc (acc * 10 ^ (natDigits n).length + n) rest := by
  intro n
  induction n using Nat.strong_induction_on with
  | _ n ih =>
    intro acc rest
    by_cases h : n < 10
    · rw [show natDigits n = [Char.ofNat (48 + n)] by rw [natDigits.eq_def]; simp [h]]
      simp only [List.cons_append, List.nil_append, List.length_cons, List.length_nil,
        parseNatAcc, isDigitChar_digit n h, if_true, ite_true, toNat_digit n h]
      simp only [show ([] : List Char).append rest = rest from rfl]
      norm_num
    · have h10 : n / 10 < n := Nat.div_lt_self (by omega) (by omega)
      rw [show natDigits n = natDigits (n / 10) ++ [Char.ofNat (48 + n % 10)] by
        rw [natDigits.eq_def]; simp [h]]
      rw [List.append_assoc, ih (n / 10) h10 acc _]
      have hm : n % 10 < 10 := by omega
      simp only [List.cons_append, List.nil_append, parseNatAcc,
        isDigitChar_digit _ hm, if_true, ite_true, toNat_digit _ hm,
        List.length_append, List.length_cons, List.length_nil]
      congr 1
      have hdm := Nat.div_add_mod n 10
      generalize (natDigits (n / 10)).length = k
      rw [pow_succ]
      ring_nf
      omega
theorem parseNatAcc_stop (acc : Nat) (rest : List Char) (h : numBoundary rest) :
    parseNatAcc acc rest = (acc, rest) := by
  cases rest with
  | nil => rfl
  | cons c cs =>
    obtain ⟨h1, -, -, -⟩ := h
    simp [parseNatAcc, h1]

theorem parseInt_intChars : ∀ (i : Int) (rest : List Char), numBoundary rest →
    parseIntChars (intChars i ++ rest) = some (i, rest) := by
  intro i rest hb
  have hnat : ∀ n : Nat, parseNatAcc 0 (natDigits n ++ rest) = (n, rest) := by
    intro n
    rw [parseNatAcc_digits n 0 rest, Nat.zero_mul, Nat.zero_add, parseNatAcc_stop _ _ hb]
  by_cases hneg : i < 0
  · have hpos : 0 < i.natAbs := by omega
    obtain ⟨d, cs, hshape, hd⟩ := natDigits_shape i.natAbs
    rw [show intChars i = '-' :: natDigits i.natAbs by simp [intChars, hneg]]
    rw [List.cons_append, hshape]
    rw [parseIntChars.eq_def]
    dsimp only
    rw [if_pos rfl]
    simp only [List.cons_append, isDigitChar_digit _ hd, if_true, ite_true, toNat_digit _ hd]
    have hp : parseNatAcc d (cs ++ rest) = (i.natAbs, rest) := by
      have h0 := hnat i.natAbs
      rw [hshape, List.cons_append] at h0
      simpa [parseNatAcc, isDigitChar_digit _ hd, toNat_digit _ hd] using h0
    rw [hp]
    dsimp only
    cases rest with
    | nil =>
      dsimp only
      simp only [Option.some.injEq, Prod.mk.injEq, and_true]
      omega
    | cons c2 cs2 =>
      obtain ⟨-, hdot, hle, hlE⟩ := hb
      dsimp only
      rw [if_neg (by simp [hdot, hle, hlE])]
      simp only [Option.some.injEq, Prod.mk.injEq, and_true]
      omega
  · obtain ⟨d, cs, hshape, hd⟩ := natDigits_shape i.toNat
    rw [show intChars i = natDigits i.toNat by simp [intChars, hneg]]
    rw [hshape, List.cons_append]
    rw [parseIntChars.eq_def]
    dsimp only
    rw [if_neg (digit_ne_minus _ hd), if_pos (isDigitChar_digit _ hd)]
    simp only [toNat_digit _ hd]
    have hp : parseNatAcc d (cs ++ rest) = (i.toNat, rest) := by
      have h0 := hnat i.toNat
      rw [hshape, List.cons_append] at h0
      simpa [parseNatAcc, isDigitChar_digit _ hd, toNat_digit _ hd] using h0
    rw [hp]
    dsimp only
    cases rest with
    | nil =>
      dsimp only
      simp only [Option.some.injEq, Prod.mk.injEq, and_true]
      omega
    | cons c2 cs2 =>
      obtain ⟨-, hdot, hle, hlE⟩ := hb
      dsimp only
      rw [if_neg (by simp [hdot, hle, hlE])]
      simp only [Option.some.injEq, Prod.mk.injEq, and_true]
      omega

theorem skipWs_not {c : Char} (cs : List Char) (h : wsChar c = false) :
    skipWs (c :: cs) = c :: cs := by
  simp [skipWs, h]

theorem jsonValueChars_pure : ∀ v : JsValue, jsonPureV v = true →
    jsonValueChars v = some (jsonCharsOf v)
  | .vUndefined, h => by simp [jsonPureV] at h
  | .vNull, _ => rfl
  | .vBool b, _ => rfl
  | .vNum n, _ => rfl
  | .vStr s, _ => rfl
  | .vArr es, _ => rfl
  | .vObj fs, _ => rfl

theorem jsonSize_pos : ∀ v : JsValue, 1 ≤ jsonSize v
  | .vUndefined => le_refl _
  | .vNull => le_refl _
  | .vBool _ => le_refl _
  | .vNum _ => le_refl _
  | .vStr _ => le_refl _
  | .vArr _ => by simp [jsonSize]
  | .vObj _ => by simp [jsonSize]

theorem jsonMSize_pos : ∀ fs, 1 ≤ jsonMSize fs
  | [] => le_refl _
  | (_, _) :: _ => by simp [jsonMSize]

theorem jsonESize_pos : ∀ es, 1 ≤ jsonESize es
  | [] => le_refl _
  | _ :: _ => by simp [jsonESize]

theorem intChars_shape (i : Int) :
    ∃ c t, intChars i = c :: t ∧ (c = '-' ∨ isDigitChar c = true) := by
  by_cases h : i < 0
  · obtain ⟨d, cs, hs, hd⟩ := natDigits_shape i.natAbs
    exact ⟨'-', natDigits i.natAbs, by simp [intChars, h], Or.inl rfl⟩
  · obtain ⟨d, cs, hs, hd⟩ := natDigits_shape i.toNat
    exact ⟨Char.ofNat (48 + d), cs, by simp [intChars, h, hs],
      Or.inr (isDigitChar_digit d hd)⟩

theorem digit_not_ws : ∀ d : Nat, d < 10 → wsChar (Char.ofNat (48 + d)) = false := by decide

theorem digit_ne_rbracket : ∀ d : Nat, d < 10 → ¬(Char.ofNat (48 + d) = ']') := by decide

theorem charsOf_head : ∀ v : JsValue, jsonPureV v = true →
    ∃ c t, jsonCharsOf v = c :: t ∧ wsChar c = false ∧ ¬(c = ']') ∧ ¬(c = ',') := by
  intro v h
  cases v with
  | vUndefined => simp [jsonPureV] at h
  | vNull => exact ⟨'n', ['u', 'l', 'l'], rfl, by decide, by decide, by decide⟩
  | vBool b =>
    cases b
    · exact ⟨'f', ['a', 'l', 's', 'e'], rfl, by decide, by decide, by decide⟩
    · exact ⟨'t', ['r', 'u', 'e'], rfl, by decide, by decide, by decide⟩
  | vNum n =>
    obtain ⟨c, t, hct, hc⟩ := intChars_shape n
    refine ⟨c, t, by simp [jsonCharsOf, jsonValueChars, hct], ?_, ?_, ?_⟩
    · rcases hc with rfl | hd
      · decide
      · simp only [wsChar]
        have h1 : ¬(c = ' ') := fun he => absurd (he ▸ hd) (by decide)
        have h2 : ¬(c = Char.ofNat 9) := fun he => absurd (he ▸ hd) (by decide)
        have h3 : ¬(c = Char.ofNat 10) := fun he => absurd (he ▸ hd) (by decide)
        have h4 : ¬(c = Char.ofNat 13) := fun he => absurd (he ▸ hd) (by decide)
        simp [h1, h2, h3, h4]
    · rcases hc with rfl | hd
      · decide
      · exact fun he => absurd (he ▸ hd) (by decide)
    · rcases hc with rfl | hd
      · decide
      · exact fun he => absurd (he ▸ hd) (by decide)
  | vStr s =>
    exact ⟨quoteChar, (s.data.map jsonEscapeChar).flatten ++ [quoteChar], rfl,
      by decide, by decide, by decide⟩
  | vArr es =>
    exact ⟨'[', commaJoin (jsonElemPieces es) ++ [']'], rfl,
      by decide, by decide, by decide⟩
  | vObj fs =>
    exact ⟨lbraceChar, commaJoin (jsonMemberPieces fs) ++ [rbraceChar], rfl,
      by decide, by decide, by decide⟩

theorem members_text_cons (k : String) (v : JsValue) (fs : List (String × JsValue))
    (X : List Char) (hv : jsonPureV v = true) :
    ∃ t, commaJoin (jsonMemberPieces ((k, v) :: fs)) ++ X = quoteChar :: t := by
  rw [show jsonMemberPieces ((k, v) :: fs) =
      (jsonStringChars k ++ ':' :: jsonCharsOf v) :: jsonMemberPieces fs by
    simp [jsonMemberPieces, jsonValueChars_pure v hv]]
  cases hfs : jsonMemberPieces fs with
  | nil =>
    simp only [commaJoin, jsonStringChars, List.cons_append, List.append_assoc]
    exact ⟨_, rfl⟩
  | cons p ps =>
    simp only [commaJoin, jsonStringChars, List.cons_append, List.append_assoc]
    exact ⟨_, rfl⟩

theorem elems_text_cons (e : JsValue) (es : List JsValue) (X : List Char)
    (hv : jsonPureV e = true) :
    ∃ c t, commaJoin (jsonElemPieces (e :: es)) ++ X = c :: t ∧ wsChar c = false ∧
      ¬(c = ']') := by
  obtain ⟨c, t0, hct, hws, hbr, _⟩ := charsOf_head e hv
  rw [show jsonElemPieces (e :: es) = jsonCharsOf e :: jsonElemPieces es by
    simp only [jsonElemPieces, jsonValueChars_pure e hv, Option.getD_some]]
  cases hes : jsonElemPieces es with
  | nil =>
    simp only [commaJoin, hct, List.cons_append]
    exact ⟨c, _, rfl, hws, hbr⟩
  | cons p ps =>
    simp only [commaJoin, hct, List.cons_append, List.append_assoc]
    exact ⟨c, _, rfl, hws, hbr⟩

theorem parse_stringify_aux : ∀ fuel : Nat,
    (∀ v rest, jsonPureV v = true → jsonSize v ≤ fuel → numBoundary rest →
      parseValue fuel (jsonCharsOf v ++ rest) = some (v, rest)) ∧
    (∀ fs rest flag, jsonPureMembers fs = true → (fs = [] → flag = true) →
      jsonMSize fs ≤ fuel →
      parseMembers fuel (commaJoin (jsonMemberPieces fs) ++ rbraceChar :: rest) flag =
        some (fs, rest)) ∧
    (∀ es rest flag, jsonPureElems es = true → (es = [] → flag = true) →
      jsonESize es ≤ fuel →
      parseElems fuel (commaJoin (jsonElemPieces es) ++ ']' :: rest) flag =
        some (es, rest)) := by
  intro fuel
  induction fuel with
  | zero =>
    refine ⟨fun v _ _ hsz _ => absurd hsz (by have := jsonSize_pos v; omega),
      fun fs _ _ _ _ hsz => absurd hsz (by have := jsonMSize_pos fs; omega),
      fun es _ _ _ _ hsz => absurd hsz (by have := jsonESize_pos es; omega)⟩
  | succ g ih =>
    obtain ⟨ihV, ihM, ihE⟩ := ih
    refine ⟨?_, ?_, ?_⟩
    · intro v rest hpure hsz hnb
      cases v with
      | vUndefined => simp [jsonPureV] at hpure
      | vNull => rfl
      | vBool b => cases b <;> rfl
      | vNum n =>
        obtain ⟨c, t, hct, hc⟩ := intChars_shape n
        have hfacts : ¬(c = quoteChar) ∧ ¬(c = lbraceChar) ∧ ¬(c = '[') ∧ ¬(c = 't') ∧
            ¬(c = 'f') ∧ ¬(c = 'n') ∧ wsChar c = false ∧
            (decide (c = '-') || isDigitChar c) = true := by
          rcases hc with rfl | hd
          · refine ⟨by decide, by decide, by decide, by decide, by decide, by decide,
              by decide, by decide⟩
          · exact ⟨fun he => absurd (he ▸ hd) (by decide),
              fun he => absurd (he ▸ hd) (by decide),
              fun he => absurd (he ▸ hd) (by decide),
              fun he => absurd (he ▸ hd) (by decide),
              fun he => absurd (he ▸ hd) (by decide),
              fun he => absurd (he ▸ hd) (by decide),
              by
                have h1 : ¬(c = ' ') := fun he => absurd (he ▸ hd) (by decide)
                have h2 : ¬(c = Char.ofNat 9) := fun he => absurd (he ▸ hd) (by decide)
                have h3 : ¬(c = Char.ofNat 10) := fun he => absurd (he ▸ hd) (by decide)
                have h4 : ¬(c = Char.ofNat 13) := fun he => absurd (he ▸ hd) (by decide)
                simp [wsChar, h1, h2, h3, h4],
              by simp only [hd, Bool.or_true]⟩
        obtain ⟨hq, hbr, hlb, ht, hf, hn, hws, hdig⟩ := hfacts
        rw [show jsonCharsOf (.vNum n) = intChars n from rfl, hct, List.cons_append,
          parseValue.eq_2, skipWs_not _ hws]
        try dsimp only
        rw [if_neg hq, if_neg hbr, if_neg hlb, if_neg ht, if_neg hf, if_neg hn,
          if_pos hdig, ← List.cons_append, ← hct, parseInt_intChars n rest hnb]
        rfl
      | vStr s =>
        rw [show jsonCharsOf (.vStr s) =
            quoteChar :: ((s.data.map jsonEscapeChar).flatten ++ [quoteChar]) from rfl,
          List.cons_append, parseValue.eq_2, skipWs_not _ (by decide)]
        try dsimp only
        rw [if_pos rfl, List.append_assoc, List.singleton_append, parseString_escaped]
        rfl
      | vArr es =>
        rw [show jsonCharsOf (.vArr es) =
            '[' :: (commaJoin (jsonElemPieces es) ++ [']']) from rfl,
          List.cons_append, parseValue.eq_2, skipWs_not _ (by decide)]
        try dsimp only
        rw [if_neg (by decide), if_neg (by decide), if_pos rfl, List.append_assoc,
          List.singleton_append]
        have hsz' : jsonESize es ≤ g := by simp [jsonSize] at hsz; omega
        have hpure' : jsonPureElems es = true := by simpa [jsonPureV] using hpure
        cases es with
        | nil =>
          rw [show commaJoin (jsonElemPieces ([] : List JsValue)) ++ ']' :: rest =
            (']' :: rest) from rfl]
          rw [skipWs_not _ (by decide),
            show parseElems g (']' :: rest) true = some ([], rest) from
              ihE [] rest true rfl (fun _ => rfl) hsz']
          rfl
        | cons e es' =>
          have hve : jsonPureV e = true := by
            simp [jsonPureElems, Bool.and_eq_true] at hpure'
            exact hpure'.1
          obtain ⟨c, t, hct, hws, _⟩ := elems_text_cons e es' (']' :: rest) hve
          rw [hct, skipWs_not _ hws, ← hct,
            ihE (e :: es') rest true hpure' (fun h => nomatch h) hsz']
          rfl
      | vObj fs =>
        rw [show jsonCharsOf (.vObj fs) =
            lbraceChar :: (commaJoin (jsonMemberPieces fs) ++ [rbraceChar]) from rfl,
          List.cons_append, parseValue.eq_2, skipWs_not _ (by decide)]
        try dsimp only
        rw [if_neg (by decide), if_pos rfl, List.append_assoc, List.singleton_append]
        have hsz' : jsonMSize fs ≤ g := by simp [jsonSize] at hsz; omega
        have hpure' : jsonPureMembers fs = true := by simpa [jsonPureV] using hpure
        cases fs with
        | nil =>
          rw [show commaJoin (jsonMemberPieces ([] : List (String × JsValue))) ++
            rbraceChar :: rest = (rbraceChar :: rest) from rfl]
          rw [skipWs_not _ (by decide),
            show parseMembers g (rbraceChar :: rest) true = some ([], rest) from
              ihM [] rest true rfl (fun _ => rfl) hsz']
          rfl
        | cons kv fs' =>
          obtain ⟨k, v⟩ := kv
          have hvk : jsonPureV v = true := by
            simp [jsonPureMembers, Bool.and_eq_true] at hpure'
            exact hpure'.1
          obtain ⟨t, hct⟩ := members_text_cons k v fs' (rbraceChar :: rest) hvk
          rw [hct, skipWs_not _ (by decide), ← hct,
            ihM ((k, v) :: fs') rest true hpure' (fun h => nomatch h) hsz']
          rfl
    · intro fs rest flag hpure hflag hsz
      cases fs with
      | nil =>
        rw [hflag rfl]
        rfl
      | cons kv fs' =>
        obtain ⟨k, v⟩ := kv
        have hpv : jsonPureV v = true ∧ jsonPureMembers fs' = true := by
          simpa [jsonPureMembers, Bool.and_eq_true] using hpure
        have hszv : jsonSize v ≤ g := by simp [jsonMSize] at hsz; omega
        have hszf : jsonMSize fs' ≤ g := by simp [jsonMSize] at hsz; omega
        rw [show jsonMemberPieces ((k, v) :: fs') =
            (jsonStringChars k ++ ':' :: jsonCharsOf v) :: jsonMemberPieces fs' by
          simp [jsonMemberPieces, jsonValueChars_pure v hpv.1]]
        have hqr : decide (quoteChar = rbraceChar) = false := by decide
        cases fs' with
        | nil =>
          rw [show jsonMemberPieces ([] : List (String × JsValue)) = [] from rfl,
            show commaJoin [jsonStringChars k ++ ':' :: jsonCharsOf v] =
            jsonStringChars k ++ ':' :: jsonCharsOf v from rfl]
          rw [show jsonStringChars k =
            quoteChar :: ((k.data.map jsonEscapeChar).flatten ++ [quoteChar]) from rfl]
          simp only [List.cons_append, List.append_assoc, List.singleton_append, List.nil_append]
          rw [parseMembers.eq_3, if_neg (by simp [hqr]), if_pos rfl, parseString_escaped]
          try dsimp only
          rw [skipWs_not _ (by decide)]
          try dsimp only
          rw [if_pos rfl]
          rw [ihV v (rbraceChar :: rest) hpv.1 hszv
            ⟨by decide, by decide, by decide, by decide⟩]
          try dsimp only
          rw [skipWs_not _ (by decide)]
          try dsimp only
          rw [if_neg (by decide), if_pos rfl]
        | cons kv2 fs'' =>
          obtain ⟨k2, v2⟩ := kv2
          have hpv2 : jsonPureV v2 = true := by
            have := hpv.2
            simp [jsonPureMembers, Bool.and_eq_true] at this
            exact this.1
          rw [show jsonMemberPieces ((k2, v2) :: fs'') =
              (jsonStringChars k2 ++ ':' :: jsonCharsOf v2) :: jsonMemberPieces fs'' by
            simp [jsonMemberPieces, jsonValueChars_pure v2 hpv2]]
          rw [show commaJoin ((jsonStringChars k ++ ':' :: jsonCharsOf v) ::
              (jsonStringChars k2 ++ ':' :: jsonCharsOf v2) :: jsonMemberPieces fs'') =
            (jsonStringChars k ++ ':' :: jsonCharsOf v) ++ ',' ::
              commaJoin ((jsonStringChars k2 ++ ':' :: jsonCharsOf v2) ::
                jsonMemberPieces fs'') from rfl]
          rw [show jsonStringChars k =
            quoteChar :: ((k.data.map jsonEscapeChar).flatten ++ [quoteChar]) from rfl]
          simp only [List.cons_append, List.append_assoc, List.singleton_append, List.nil_append]
          rw [parseMembers.eq_3, if_neg (by simp [hqr]), if_pos rfl, parseString_escaped]
          try dsimp only
          rw [skipWs_not _ (by decide)]
          try dsimp only
          rw [if_pos rfl]
          rw [ihV v (',' :: (commaJoin ((jsonStringChars k2 ++ ':' :: jsonCharsOf v2) ::
              jsonMemberPieces fs'') ++ rbraceChar :: rest)) hpv.1 hszv
            ⟨by decide, by decide, by decide, by decide⟩]
          try dsimp only
          rw [skipWs_not _ (by decide)]
          try dsimp only
          rw [if_pos rfl]
          obtain ⟨t, hct⟩ := members_text_cons k2 v2 fs'' (rbraceChar :: rest) hpv2
          rw [show jsonMemberPieces ((k2, v2) :: fs'') =
              (jsonStringChars k2 ++ ':' :: jsonCharsOf v2) :: jsonMemberPieces fs'' by
            simp [jsonMemberPieces, jsonValueChars_pure v2 hpv2]] at hct
          rw [hct, skipWs_not _ (by decide), ← hct,
            show parseMembers g (commaJoin ((jsonStringChars k2 ++ ':' ::
                jsonCharsOf v2) :: jsonMemberPieces fs'') ++ rbraceChar :: rest) false =
              some ((k2, v2) :: fs'', rest) from by
            rw [show (jsonStringChars k2 ++ ':' :: jsonCharsOf v2) :: jsonMemberPieces fs'' =
                jsonMemberPieces ((k2, v2) :: fs'') from by
              simp [jsonMemberPieces, jsonValueChars_pure v2 hpv2]]
            exact ihM ((k2, v2) :: fs'') rest false hpv.2 (fun h => nomatch h) hszf]
          rfl
    · intro es rest flag hpure hflag hsz
      cases es with
      | nil =>
        rw [hflag rfl]
        rfl
      | cons e es' =>
        have hpe : jsonPureV e = true ∧ jsonPureElems es' = true := by
          simpa [jsonPureElems, Bool.and_eq_true] using hpure
        have hsze : jsonSize e ≤ g := by simp [jsonESize] at hsz; omega
        have hszes : jsonESize es' ≤ g := by simp [jsonESize] at hsz; omega
        obtain ⟨c, t0, hch, hws, hbr, hcm⟩ := charsOf_head e hpe.1
        rw [show jsonElemPieces (e :: es') = jsonCharsOf e :: jsonElemPieces es' by
          simp only [jsonElemPieces, jsonValueChars_pure e hpe.1, Option.getD_some]]
        cases es' with
        | nil =>
          rw [show jsonElemPieces ([] : List JsValue) = [] from rfl]
          rw [show commaJoin [jsonCharsOf e] = jsonCharsOf e from rfl, hch,
            List.cons_append, parseElems.eq_3,
            if_neg (by simp [hbr]), ← List.cons_append, ← hch,
            ihV e (']' :: rest) hpe.1 hsze ⟨by decide, by decide, by decide, by decide⟩]
          try dsimp only
          rw [skipWs_not _ (by decide)]
          try dsimp only
          rw [if_neg (by decide), if_pos rfl]
        | cons e2 es'' =>
          have hpe2 : jsonPureV e2 = true := by
            have := hpe.2
            simp [jsonPureElems, Bool.and_eq_true] at this
            exact this.1
          rw [show jsonElemPieces (e2 :: es'') = jsonCharsOf e2 :: jsonElemPieces es'' by
            simp only [jsonElemPieces, jsonValueChars_pure e2 hpe2, Option.getD_some]]
          rw [show commaJoin (jsonCharsOf e :: jsonCharsOf e2 :: jsonElemPieces es'') =
            jsonCharsOf e ++ ',' :: commaJoin (jsonCharsOf e2 :: jsonElemPieces es'')
            from rfl]
          rw [hch]
          simp only [List.cons_append, List.append_assoc, List.nil_append]
          rw [parseElems.eq_3, if_neg (by simp [hbr]), ← List.cons_append, ← hch]
          rw [show jsonCharsOf e ++ ',' :: (commaJoin (jsonCharsOf e2 ::
              jsonElemPieces es'') ++ ']' :: rest) = jsonCharsOf e ++ ',' ::
              (commaJoin (jsonCharsOf e2 :: jsonElemPieces es'') ++ ']' :: rest)
            from rfl]
          rw [ihV e (',' :: (commaJoin (jsonCharsOf e2 :: jsonElemPieces es'') ++
              ']' :: rest)) hpe.1 hsze ⟨by decide, by decide, by decide, by decide⟩]
          try dsimp only
          rw [skipWs_not _ (by decide)]
          try dsimp only
          rw [if_pos rfl]
          obtain ⟨c2, t2, hch2, hws2, hbr2⟩ :=
            elems_text_cons e2 es'' (']' :: rest) hpe2
          rw [show jsonElemPieces (e2 :: es'') = jsonCharsOf e2 :: jsonElemPieces es'' by
            simp only [jsonElemPieces, jsonValueChars_pure e2 hpe2, Option.getD_some]] at hch2
          rw [hch2, skipWs_not _ hws2, ← hch2,
            show parseElems g (commaJoin (jsonCharsOf e2 :: jsonElemPieces es'') ++
                ']' :: rest) false = some (e2 :: es'', rest) from by
              rw [show jsonCharsOf e2 :: jsonElemPieces es'' =
                  jsonElemPieces (e2 :: es'') from by
                simp only [jsonElemPieces, jsonValueChars_pure e2 hpe2, Option.getD_some]]
              exact ihE (e2 :: es'') rest false hpe.2 (fun h => nomatch h) hszes]
          rfl

theorem sizes_le_aux : ∀ n : Nat,
    (∀ v, jsonSize v ≤ n → jsonPureV v = true →
      jsonSize v ≤ (jsonCharsOf v).length) ∧
    (∀ es, jsonESize es ≤ n → jsonPureElems es = true →
      jsonESize es ≤ (commaJoin (jsonElemPieces es)).length + 1) ∧
    (∀ fs, jsonMSize fs ≤ n → jsonPureMembers fs = true →
      jsonMSize fs ≤ (commaJoin (jsonMemberPieces fs)).length + 1) := by
  intro n
  induction n with
  | zero =>
    exact ⟨fun v hs _ => absurd (le_trans (jsonSize_pos v) hs) (by omega),
      fun es hs _ => absurd (le_trans (jsonESize_pos es) hs) (by omega),
      fun fs hs _ => absurd (le_trans (jsonMSize_pos fs) hs) (by omega)⟩
  | succ g ih =>
    obtain ⟨ihV, ihE, ihM⟩ := ih
    refine ⟨?_, ?_, ?_⟩
    · intro v hs hp
      cases v with
      | vUndefined => simp [jsonPureV] at hp
      | vNull => decide
      | vBool b => cases b <;> decide
      | vNum i =>
        obtain ⟨c, t, hct, -, -, -⟩ := charsOf_head (.vNum i) hp
        simp only [jsonSize, hct, List.length_cons]
        omega
      | vStr s =>
        obtain ⟨c, t, hct, -, -, -⟩ := charsOf_head (.vStr s) hp
        simp only [jsonSize, hct, List.length_cons]
        omega
      | vArr es =>
        simp only [jsonPureV] at hp
        have hE := ihE es (by simp [jsonSize] at hs; omega) hp
        simp only [jsonSize, jsonCharsOf, jsonValueChars, Option.getD_some,
          List.length_cons, List.length_append, List.length_singleton]
        omega
      | vObj fs =>
        simp only [jsonPureV] at hp
        have hM := ihM fs (by simp [jsonSize] at hs; omega) hp
        simp only [jsonSize, jsonCharsOf, jsonValueChars, Option.getD_some,
          List.length_cons, List.length_append, List.length_singleton]
        omega
    · intro es hsz hp
      cases es with
      | nil => decide
      | cons e es' =>
        have hpe : jsonPureV e = true ∧ jsonPureElems es' = true := by
          simpa [jsonPureElems, Bool.and_eq_true] using hp
        have h1 : jsonSize e ≤ g := by simp [jsonESize] at hsz; omega
        have h2 : jsonESize es' ≤ g := by simp [jsonESize] at hsz; omega
        have hv := ihV e h1 hpe.1
        have hne : 1 ≤ (jsonCharsOf e).length := by
          obtain ⟨c, t, hct, -, -, -⟩ := charsOf_head e hpe.1
          simp [hct]
        rw [show jsonElemPieces (e :: es') = jsonCharsOf e :: jsonElemPieces es' by
          simp only [jsonElemPieces, jsonValueChars_pure e hpe.1, Option.getD_some]]
        cases es' with
        | nil =>
          rw [show jsonElemPieces ([] : List JsValue) = [] from rfl,
            show commaJoin [jsonCharsOf e] = jsonCharsOf e from rfl,
            show jsonESize [e] = 1 + max (jsonSize e) 1 from rfl]
          have hm : max (jsonSize e) 1 ≤ (jsonCharsOf e).length :=
            Nat.max_le.mpr ⟨hv, hne⟩
          omega
        | cons e2 es'' =>
          have hpe2 : jsonPureV e2 = true := by
            have := hpe.2
            simp [jsonPureElems, Bool.and_eq_true] at this
            exact this.1
          have hE := ihE (e2 :: es'') h2 hpe.2
          rw [show jsonElemPieces (e2 :: es'') = jsonCharsOf e2 :: jsonElemPieces es'' by
            simp only [jsonElemPieces, jsonValueChars_pure e2 hpe2, Option.getD_some]] at hE ⊢
          rw [show commaJoin (jsonCharsOf e :: jsonCharsOf e2 :: jsonElemPieces es'') =
            jsonCharsOf e ++ ',' :: commaJoin (jsonCharsOf e2 :: jsonElemPieces es'')
            from rfl]
          rw [show jsonESize (e :: e2 :: es'') =
            1 + max (jsonSize e) (jsonESize (e2 :: es'')) from rfl]
          simp only [List.length_append, List.length_cons]
          have hm : max (jsonSize e) (jsonESize (e2 :: es'')) ≤
              (jsonCharsOf e).length +
                ((commaJoin (jsonCharsOf e2 :: jsonElemPieces es'')).length + 1) :=
            Nat.max_le.mpr ⟨by omega, by omega⟩
          omega
    · intro fs hsz hp
      cases fs with
      | nil => decide
      | cons kv fs' =>
        obtain ⟨k, v⟩ := kv
        have hpv : jsonPureV v = true ∧ jsonPureMembers fs' = true := by
          simpa [jsonPureMembers, Bool.and_eq_true] using hp
        have h1 : jsonSize v ≤ g := by simp [jsonMSize] at hsz; omega
        have h2 : jsonMSize fs' ≤ g := by simp [jsonMSize] at hsz; omega
        have hv := ihV v h1 hpv.1
        rw [show jsonMemberPieces ((k, v) :: fs') =
            (jsonStringChars k ++ ':' :: jsonCharsOf v) :: jsonMemberPieces fs' by
          simp [jsonMemberPieces, jsonValueChars_pure v hpv.1]]
        have hplen : (jsonStringChars k ++ ':' :: jsonCharsOf v).length =
            (k.data.map jsonEscapeChar).flatten.length + 2 + (1 + (jsonCharsOf v).length) := by
          simp [jsonStringChars, List.length_append]
          omega
        cases fs' with
        | nil =>
          rw [show jsonMemberPieces ([] : List (String × JsValue)) = [] from rfl,
            show commaJoin [jsonStringChars k ++ ':' :: jsonCharsOf v] =
              jsonStringChars k ++ ':' :: jsonCharsOf v from rfl,
            show jsonMSize [(k, v)] = 1 + max (jsonSize v) 1 from rfl]
          have hm : max (jsonSize v) 1 ≤ (jsonStringChars k ++ ':' :: jsonCharsOf v).length :=
            Nat.max_le.mpr ⟨by omega, by omega⟩
          omega
        | cons kv2 fs'' =>
          obtain ⟨k2, v2⟩ := kv2
          have hpv2 : jsonPureV v2 = true := by
            have := hpv.2
            simp [jsonPureMembers, Bool.and_eq_true] at this
            exact this.1
          have hM := ihM ((k2, v2) :: fs'') h2 hpv.2
          rw [show jsonMemberPieces ((k2, v2) :: fs'') =
              (jsonStringChars k2 ++ ':' :: jsonCharsOf v2) :: jsonMemberPieces fs'' by
            simp [jsonMemberPieces, jsonValueChars_pure v2 hpv2]] at hM ⊢
          rw [show commaJoin ((jsonStringChars k ++ ':' :: jsonCharsOf v) ::
              (jsonStringChars k2 ++ ':' :: jsonCharsOf v2) :: jsonMemberPieces fs'') =
            (jsonStringChars k ++ ':' :: jsonCharsOf v) ++ ',' ::
              commaJoin ((jsonStringChars k2 ++ ':' :: jsonCharsOf v2) ::
                jsonMemberPieces fs'') from rfl]
          rw [show jsonMSize ((k, v) :: (k2, v2) :: fs'') =
            1 + max (jsonSize v) (jsonMSize ((k2, v2) :: fs'')) from rfl]
          simp only [List.length_append, List.length_cons]
          have hm : max (jsonSize v) (jsonMSize ((k2, v2) :: fs'')) ≤
              (jsonStringChars k ++ ':' :: jsonCharsOf v).length +
                ((commaJoin ((jsonStringChars k2 ++ ':' :: jsonCharsOf v2) ::
                    jsonMemberPieces fs'')).length + 1) :=
            Nat.max_le.mpr ⟨by omega, by omega⟩
          simp only [List.length_append, List.length_cons] at hm
          omega

/-- For a pure value, parsing the rendered text recovers the value. -/
theorem jsonParse_charsOf (v : JsValue) (hp : jsonPureV v = true) :
    jsonParse (String.mk (jsonCharsOf v)) = Except.ok v := by
  have hb := (sizes_le_aux (jsonSize v)).1 v le_rfl hp
  have hmain := (parse_stringify_aux ((jsonCharsOf v).length + 1)).1 v [] hp
    (by omega) trivial
  rw [List.append_nil] at hmain
  show (match parseValue ((String.mk (jsonCharsOf v)).length + 1)
      (String.mk (jsonCharsOf v)).data with
    | some (v, rest) =>
      match skipWs rest with
      | [] => Except.ok v
      | _ :: _ => Except.error ()
    | none => Except.error ()) = Except.ok v
  rw [show (String.mk (jsonCharsOf v)).length = (jsonCharsOf v).length from rfl,
    show (String.mk (jsonCharsOf v)).data = jsonCharsOf v from rfl, hmain]
  rfl

/-- `JSON.parse` inverts `JSON.stringify` on pure values. -/
theorem jsonParse_stringify (v : JsValue) (hp : jsonPureV v = true) :
    ∃ s, jsonStringify v = some s ∧ jsonParse s = Except.ok v := by
  refine ⟨String.mk (jsonCharsOf v), ?_, jsonParse_charsOf v hp⟩
  simp [jsonStringify, jsonValueChars_pure v hp]

/-! ## Lemmas about the chunk layer and the orchestrator -/

/-! ## Round trip of the chunk stream writer and parser -/

theorem readBe32_be32 (n : Nat) (rest : List Nat) (h : n < 4294967296) :
    readBe32 (be32 n ++ rest) = n := by
  simp only [be32, List.cons_append, List.nil_append, readBe32]
  omega

theorem encodeChunk_length (ch : PngChunk) (h : ch.name.data.length = 4) :
    (encodeChunk ch).length = 12 + ch.data.length := by
  simp [encodeChunk, be32, nameBytes, h]
  omega

theorem encodeChunk_length_pos (ch : PngChunk) : 1 ≤ (encodeChunk ch).length := by
  simp [encodeChunk, be32]

theorem flatten_encode_length (chunks : List PngChunk) :
    chunks.length ≤ ((chunks.map encodeChunk).flatten).length := by
  induction chunks with
  | nil => simp
  | cons ch rest ih =>
    simp only [List.map_cons, List.flatten_cons, List.length_append, List.length_cons]
    have := encodeChunk_length_pos ch
    omega

theorem bytesToName_nameBytes (s : String) : bytesToName (nameBytes s) = s := by
  simp [bytesToName, nameBytes, List.map_map, Function.comp_def, Char.ofNat_toNat]

theorem extractChunksAux_encode : ∀ chunks : List PngChunk, ∀ fuel : Nat,
    (∀ ch ∈ chunks, chunkWF ch) → chunks.length ≤ fuel →
    extractChunksAux fuel ((chunks.map encodeChunk).flatten) = some chunks := by
  intro chunks
  induction chunks with
  | nil => intro fuel _ _; cases fuel <;> rfl
  | cons ch rest ih =>
    intro fuel hwf hlen
    obtain ⟨f, rfl⟩ : ∃ f, fuel = f + 1 :=
      ⟨fuel - 1, by simp at hlen; omega⟩
    obtain ⟨hn4, hd32⟩ := hwf ch (by simp)
    simp only [List.map_cons, List.flatten_cons]
    have hsplit : encodeChunk ch ++ (rest.map encodeChunk).flatten =
        be32 ch.data.length ++ (nameBytes ch.name ++ (ch.data ++
          (be32 (crc32 (nameBytes ch.name ++ ch.data)) ++
            (rest.map encodeChunk).flatten))) := by
      simp [encodeChunk, List.append_assoc]
    have hread : readBe32 (encodeChunk ch ++ (rest.map encodeChunk).flatten) =
        ch.data.length := by
      rw [hsplit]; exact readBe32_be32 _ _ hd32
    have htot : (encodeChunk ch ++ (rest.map encodeChunk).flatten).length =
        12 + ch.data.length + ((rest.map encodeChunk).flatten).length := by
      rw [List.length_append, encodeChunk_length ch hn4]
    have hdrop12 : (encodeChunk ch ++ (rest.map encodeChunk).flatten).drop
        (12 + ch.data.length) = (rest.map encodeChunk).flatten :=
      List.drop_left' (encodeChunk_length ch hn4)
    have hb4 : (be32 ch.data.length).length = 4 := by simp [be32]
    have hnb4 : (nameBytes ch.name).length = 4 := by simp [nameBytes, hn4]
    have hdrop4 : (encodeChunk ch ++ (rest.map encodeChunk).flatten).drop 4 =
        nameBytes ch.name ++ (ch.data ++
          (be32 (crc32 (nameBytes ch.name ++ ch.data)) ++
            (rest.map encodeChunk).flatten)) := by
      rw [hsplit]; exact List.drop_left' hb4
    have hname : ((encodeChunk ch ++ (rest.map encodeChunk).flatten).drop 4).take 4 =
        nameBytes ch.name := by
      rw [hdrop4]; exact List.take_left' hnb4
    have hdrop8 : (encodeChunk ch ++ (rest.map encodeChunk).flatten).drop 8 =
        ch.data ++ (be32 (crc32 (nameBytes ch.name ++ ch.data)) ++
          (rest.map encodeChunk).flatten) := by
      have : (8 : Nat) = 4 + 4 := rfl
      rw [this, ← List.drop_drop, hdrop4]
      exact List.drop_left' hnb4
    have hdata : ((encodeChunk ch ++ (rest.map encodeChunk).flatten).drop 8).take
        ch.data.length = ch.data := by
      rw [hdrop8]; exact List.take_left' rfl
    match hbs : encodeChunk ch ++ (rest.map encodeChunk).flatten with
    | [] =>
      have hpos := encodeChunk_length_pos ch
      have hz : (encodeChunk ch ++ (rest.map encodeChunk).flatten).length = 0 := by
        rw [hbs]; rfl
      rw [List.length_append] at hz
      exact absurd hz (by omega)
    | b0 :: t =>
      rw [show extractChunksAux (f + 1) (b0 :: t) =
          (if 12 + readBe32 (b0 :: t) ≤ (b0 :: t).length then
            match extractChunksAux f ((b0 :: t).drop (12 + readBe32 (b0 :: t))) with
            | none => none
            | some chunks =>
              some ({ name := bytesToName (((b0 :: t).drop 4).take 4),
                      data := ((b0 :: t).drop 8).take (readBe32 (b0 :: t)) } :: chunks)
          else none) from rfl]
      rw [← hbs, hread, if_pos (by rw [htot]; omega), hdrop12,
        ih f (fun c hc => hwf c (by simp [hc])) (by simp at hlen; omega),
        hname, bytesToName_nameBytes, hdata]

theorem extract_encode (chunks : List PngChunk) (h : ∀ ch ∈ chunks, chunkWF ch) :
    extractChunks (encodeChunks chunks) = some chunks := by
  have hsig : (pngSignature ++ (chunks.map encodeChunk).flatten).take 8 =
      pngSignature := List.take_left' rfl
  have hdrop : (pngSignature ++ (chunks.map encodeChunk).flatten).drop 8 =
      (chunks.map encodeChunk).flatten := List.drop_left' rfl
  have hfuel : chunks.length ≤
      (pngSignature ++ (chunks.map encodeChunk).flatten).length := by
    rw [List.length_append]
    have := flatten_encode_length chunks
    omega
  simp only [extractChunks, encodeChunks, hsig, hdrop, if_pos rfl]
  exact extractChunksAux_encode chunks _ h hfuel

theorem extractChunksAux_WF : ∀ fuel bs chunks, (∀ b ∈ bs, b < 256) →
    extractChunksAux fuel bs = some chunks → ∀ ch ∈ chunks, chunkWF ch := by
  intro fuel
  induction fuel with
  | zero =>
    intro bs chunks hb h ch hch
    cases bs with
    | nil =>
      rw [show extractChunksAux 0 [] = some [] from rfl] at h
      cases h
      simp at hch
    | cons b0 t =>
      rw [show extractChunksAux 0 (b0 :: t) = none from rfl] at h
      cases h
  | succ f ih =>
    intro bs chunks hb h ch hch
    cases bs with
    | nil =>
      rw [show extractChunksAux (f + 1) [] = some [] from rfl] at h
      cases h
      simp at hch
    | cons b0 t =>
      rw [show extractChunksAux (f + 1) (b0 :: t) =
          (if 12 + readBe32 (b0 :: t) ≤ (b0 :: t).length then
            match extractChunksAux f ((b0 :: t).drop (12 + readBe32 (b0 :: t))) with
            | none => none
            | some chunks =>
              some ({ name := bytesToName (((b0 :: t).drop 4).take 4),
                      data := ((b0 :: t).drop 8).take (readBe32 (b0 :: t)) } :: chunks)
          else none) from rfl] at h
      by_cases hc : 12 + readBe32 (b0 :: t) ≤ (b0 :: t).length
      · rw [if_pos hc] at h
        cases haux : extractChunksAux f ((b0 :: t).drop (12 + readBe32 (b0 :: t))) with
        | none => rw [haux] at h; cases h
        | some chunks' =>
          rw [haux] at h
          cases h
          rcases List.mem_cons.mp hch with rfl | hmem
          · constructor
            · show (bytesToName (((b0 :: t).drop 4).take 4)).data.length = 4
              have h4 : (((b0 :: t).drop 4).take 4).length = 4 := by
                rw [List.length_take, List.length_drop]
                simp only [List.length_cons] at hc ⊢
                omega
              show ((((b0 :: t).drop 4).take 4).map Char.ofNat).length = 4
              rw [List.length_map]
              exact h4
            · show (((b0 :: t).drop 8).take (readBe32 (b0 :: t))).length < 4294967296
              match t with
              | t1 :: t2 :: t3 :: t' =>
                have h0 : b0 < 256 := hb b0 (by simp)
                have h1 : t1 < 256 := hb t1 (by simp)
                have h2 : t2 < 256 := hb t2 (by simp)
                have h3 : t3 < 256 := hb t3 (by simp)
                rw [List.length_take]
                rw [show readBe32 (b0 :: t1 :: t2 :: t3 :: t') =
                  ((b0 * 256 + t1) * 256 + t2) * 256 + t3 from rfl] at hc ⊢
                omega
              | [] =>
                rw [show readBe32 [b0] = 0 from rfl] at hc
                simp at hc
              | [t1] =>
                rw [show readBe32 [b0, t1] = 0 from rfl] at hc
                simp at hc
              | [t1, t2] =>
                rw [show readBe32 [b0, t1, t2] = 0 from rfl] at hc
                simp at hc
          · exact ih _ chunks'
              (fun b hbm => hb b (List.drop_subset _ _ hbm)) haux ch hmem
      · rw [if_neg hc] at h; cases h

theorem extractChunks_WF (bs : List Nat) (chunks : List PngChunk)
    (hb : ∀ b ∈ bs, b < 256) (h : extractChunks bs = some chunks) :
    ∀ ch ∈ chunks, chunkWF ch := by
  rw [extractChunks] at h
  by_cases hs : bs.take 8 = pngSignature
  · rw [if_pos hs] at h
    exact extractChunksAux_WF bs.length (bs.drop 8) chunks
      (fun b hbm => hb b (List.drop_subset _ _ hbm)) h
  · rw [if_neg hs] at h; cases h

/-! ## Round trip of the text-chunk transport -/

theorem takeWhile_nonzero (l r : List Nat) (h : ∀ b ∈ l, b ≠ 0) :
    (l ++ 0 :: r).takeWhile (fun b => b != 0) = l := by
  induction l with
  | nil => simp [List.takeWhile]
  | cons x t ih =>
    have hx : (x != 0) = true := by
      simpa using h x (by simp)
    simp only [List.cons_append, List.takeWhile_cons, hx, if_true]
    rw [ih (fun b hb => h b (by simp [hb]))]

theorem dropWhile_nonzero (l r : List Nat) (h : ∀ b ∈ l, b ≠ 0) :
    (l ++ 0 :: r).dropWhile (fun b => b != 0) = 0 :: r := by
  induction l with
  | nil => simp [List.dropWhile]
  | cons x t ih =>
    have hx : (x != 0) = true := by
      simpa using h x (by simp)
    simp only [List.cons_append, List.dropWhile_cons, hx, if_true]
    exact ih (fun b hb => h b (by simp [hb]))

theorem map_ofNat_toNat (cs : List Char) :
    (cs.map Char.toNat).map Char.ofNat = cs := by
  simp [List.map_map, Function.comp_def, Char.ofNat_toNat]

theorem textDecode_textEncode (kw txt : String)
    (h : ∀ c ∈ kw.data, c.toNat ≠ 0) :
    textDecode (textEncode kw txt).data = .ok (kw, txt) := by
  have hz : ∀ b ∈ kw.data.map Char.toNat, b ≠ 0 := by
    intro b hb
    obtain ⟨c, hc, rfl⟩ := List.mem_map.mp hb
    exact h c hc
  show textDecode (kw.data.map Char.toNat ++ 0 :: txt.data.map Char.toNat) = _
  rw [textDecode, dropWhile_nonzero _ _ hz, takeWhile_nonzero _ _ hz]
  show Except.ok (String.mk ((kw.data.map Char.toNat).map Char.ofNat),
      String.mk ((txt.data.map Char.toNat).map Char.ofNat)) =
    Except.ok (kw, txt)
  rw [map_ofNat_toNat, map_ofNat_toNat]

/-! ## The embedded-payload transform -/

theorem utf8EncodeChar_lt (n : Nat) (h : n < 1114112) :
    ∀ b ∈ utf8EncodeChar n, b < 256 := by
  intro b hb
  by_cases h1 : n < 128
  · simp [utf8EncodeChar, h1] at hb
    omega
  · by_cases h2 : n < 2048
    · simp [utf8EncodeChar, h1, h2] at hb
      rcases hb with rfl | rfl <;> omega
    · by_cases h3 : n < 65536
      · simp [utf8EncodeChar, h1, h2, h3] at hb
        rcases hb with rfl | rfl | rfl <;> omega
      · simp [utf8EncodeChar, h1, h2, h3] at hb
        rcases hb with rfl | rfl | rfl | rfl <;> omega

theorem char_toNat_lt (c : Char) : c.toNat < 1114112 := by
  have := c.valid
  rcases this with h | ⟨h1, h2⟩
  · have : c.val.toNat < 55296 := h
    simp only [Char.toNat]
    omega
  · have : c.val.toNat < 1114112 := h2
    simp only [Char.toNat]
    omega

theorem utf8EncodeList_lt (cs : List Char) : ∀ b ∈ utf8EncodeList cs, b < 256 := by
  induction cs with
  | nil => intro b hb; simp [utf8EncodeList] at hb
  | cons c t ih =>
    intro b hb
    rw [show utf8EncodeList (c :: t) = utf8EncodeChar c.toNat ++ utf8EncodeList t
      from rfl] at hb
    rcases List.mem_append.mp hb with hb | hb
    · exact utf8EncodeChar_lt c.toNat (char_toNat_lt c) b hb
    · exact ih b hb

theorem decodeCardText_encode (card : JsValue) (hp : jsonPureV card = true) :
    decodeCardText (btoaBytes (utf8Encode
      ((jsonStringify card).getD "undefined"))) = .ok card := by
  have hs : jsonStringify card = some (String.mk (jsonCharsOf card)) := by
    simp [jsonStringify, jsonValueChars_pure card hp]
  rw [hs, Option.getD_some]
  have hlt : ∀ b ∈ utf8Encode (String.mk (jsonCharsOf card)), b < 256 :=
    utf8EncodeList_lt (jsonCharsOf card)
  have hb64 : atobBytes (btoaBytes (utf8Encode (String.mk (jsonCharsOf card)))) =
      .ok (utf8Encode (String.mk (jsonCharsOf card))) := by
    show (match b64DecodeChars (b64EncodeChars
        (utf8Encode (String.mk (jsonCharsOf card)))) with
      | some bs => Except.ok bs
      | none => Except.error ()) = _
    rw [b64_roundtrip _ hlt]
  rw [show decodeCardText (btoaBytes (utf8Encode (String.mk (jsonCharsOf card)))) =
      (do
        let bytes ← atobBytes (btoaBytes (utf8Encode (String.mk (jsonCharsOf card))))
        let s ← utf8Decode bytes
        jsonParse s) from rfl,
    hb64]
  show (do
    let s ← utf8Decode (utf8Encode (String.mk (jsonCharsOf card)))
    jsonParse s) = _
  rw [utf8_roundtrip]
  show jsonParse (String.mk (jsonCharsOf card)) = _
  rw [jsonParse_charsOf card hp]

/-! ## The scan loops of extraction -/

theorem findCcv3_skip (ch : PngChunk) (rest : List PngChunk)
    (h : ch.name = "tEXt" →
      ∃ kw txt, textDecode ch.data = .ok (kw, txt) ∧ ¬(kw = "ccv3")) :
    findCcv3 (ch :: rest) = findCcv3 rest := by
  by_cases hn : ch.name = "tEXt"
  · obtain ⟨kw, txt, hd, hne⟩ := h hn
    simp [findCcv3, hn, hd, hne]
  · simp [findCcv3, hn]

theorem findCcv3_walk (pre l : List PngChunk)
    (h : ∀ ch ∈ pre, ch.name = "tEXt" →
      ∃ kw txt, textDecode ch.data = .ok (kw, txt) ∧ ¬(kw = "ccv3")) :
    findCcv3 (pre ++ l) = findCcv3 l := by
  induction pre with
  | nil => rfl
  | cons ch t ih =>
    rw [List.cons_append, findCcv3_skip ch _ (h ch (by simp)),
      ih (fun c hc => h c (by simp [hc]))]

theorem findCcv3_hit (ch : PngChunk) (rest : List PngChunk) (txt : String)
    (v : JsValue) (hn : ch.name = "tEXt")
    (hd : textDecode ch.data = .ok ("ccv3", txt))
    (hv : decodeCardText txt = .ok v) :
    findCcv3 (ch :: rest) = .ok (some v) := by
  simp [findCcv3, hn, hd, hv, bind, Except.bind]

theorem findChara_skip (ch : PngChunk) (rest : List PngChunk)
    (h : ch.name = "tEXt" →
      ∃ kw txt, textDecode ch.data = .ok (kw, txt) ∧ ¬(kw = "chara")) :
    findChara (ch :: rest) = findChara rest := by
  by_cases hn : ch.name = "tEXt"
  · obtain ⟨kw, txt, hd, hne⟩ := h hn
    simp [findChara, hn, hd, hne]
  · simp [findChara, hn]

theorem findChara_walk (pre l : List PngChunk)
    (h : ∀ ch ∈ pre, ch.name = "tEXt" →
      ∃ kw txt, textDecode ch.data = .ok (kw, txt) ∧ ¬(kw = "chara")) :
    findChara (pre ++ l) = findChara l := by
  induction pre with
  | nil => rfl
  | cons ch t ih =>
    rw [List.cons_append, findChara_skip ch _ (h ch (by simp)),
      ih (fun c hc => h c (by simp [hc]))]

theorem findChara_hit_v1 (ch : PngChunk) (rest : List PngChunk) (txt : String)
    (v sp : JsValue) (hn : ch.name = "tEXt")
    (hd : textDecode ch.data = .ok ("chara", txt))
    (hv : decodeCardText txt = .ok v)
    (hver : detectCardVersion v = .ok .v1)
    (hsp : jsGet v "spec" = .ok sp)
    (hne : strictEqStr sp specV2Tag = false) :
    findChara (ch :: rest) = .ok (some { card := v, detectedVersion := .v1 }) := by
  simp [findChara, hn, hd, hv, hver, hsp, hne, bind, Except.bind, pure, Except.pure]

theorem findChara_hit_v2 (ch : PngChunk) (rest : List PngChunk) (txt : String)
    (v : JsValue) (hn : ch.name = "tEXt")
    (hd : textDecode ch.data = .ok ("chara", txt))
    (hv : decodeCardText txt = .ok v)
    (hver : detectCardVersion v = .ok .v2) :
    findChara (ch :: rest) = .ok (some { card := v, detectedVersion := .v2 }) := by
  simp [findChara, hn, hd, hv, hver, bind, Except.bind, pure, Except.pure]

/-- A `spec` value strictly equal to the Full marker never detects Extended:
the strict Full comparison fires first, or the input is not an object at
all. -/
theorem spec_v3_not_v2 (card sp : JsValue)
    (hsp : jsGet card "spec" = .ok sp)
    (hv3 : strictEqStr sp specV3Tag = true) :
    detectCardVersion card ≠ .ok .v2 := by
  cases card with
  | vUndefined => simp [jsGet] at hsp
  | vNull => simp [jsGet] at hsp
  | vBool b =>
    simp [detectCardVersion, jsTruthy, typeofIsObject, bind, Except.bind, pure,
      Except.pure]
  | vNum n =>
    simp [detectCardVersion, jsTruthy, typeofIsObject, bind, Except.bind, pure,
      Except.pure]
  | vStr s =>
    obtain rfl : JsValue.vUndefined = sp := by simpa [jsGet] using hsp
    simp [strictEqStr, specV3Tag] at hv3
  | vArr es =>
    obtain rfl : JsValue.vUndefined = sp := by simpa [jsGet] using hsp
    simp [strictEqStr, specV3Tag] at hv3
  | vObj fields =>
    have hsp' : (lookupKey fields "spec").getD .vUndefined = sp := by
      simpa [jsGet] using hsp
    simp [detectCardVersion, jsTruthy, typeofIsObject, jsGet, hsp', hv3, bind,
      Except.bind, pure, Except.pure]

/-- Whatever the second scan loop returns was decoded from a `chara` chunk:
its version tag is Legacy or Extended, and a payload whose `spec` is
strictly the Full marker is tagged Legacy. -/
theorem findChara_some : ∀ chunks : List PngChunk, ∀ r : ExtractedCard,
    findChara chunks = .ok (some r) →
    (r.detectedVersion = .v1 ∨ r.detectedVersion = .v2) ∧
    (∀ sp, jsGet r.card "spec" = .ok sp → strictEqStr sp specV3Tag = true →
      r.detectedVersion = .v1) := by
  intro chunks
  induction chunks with
  | nil => intro r h; simp [findChara] at h
  | cons ch rest ih =>
    intro r h
    by_cases hn : ch.name = "tEXt"
    · rw [show findChara (ch :: rest) =
        (if ch.name = "tEXt" then
          match textDecode ch.data with
          | .error _ => .error ()
          | .ok (kw, txt) =>
            if kw = "chara" then do
              let parsed ← decodeCardText txt
              let version ← detectCardVersion parsed
              let isV2 ←
                if version = SpecVersion.v2 then pure true
                else do
                  let sp ← jsGet parsed "spec"
                  pure (strictEqStr sp specV2Tag)
              if isV2 then .ok (some { card := parsed, detectedVersion := .v2 })
              else .ok (some { card := parsed, detectedVersion := .v1 })
            else findChara rest
          else findChara rest) from rfl, if_pos hn] at h
      cases htd : textDecode ch.data with
      | error e => rw [htd] at h; exact absurd h (by simp)
      | ok p =>
        obtain ⟨kw, txt⟩ := p
        rw [htd] at h
        dsimp only at h
        by_cases hkw : kw = "chara"
        · rw [if_pos hkw] at h
          cases hdc : decodeCardText txt with
          | error e => simp [hdc, bind, Except.bind] at h
          | ok parsed =>
            cases hdet : detectCardVersion parsed with
            | error e => simp [hdc, hdet, bind, Except.bind] at h
            | ok ver =>
              by_cases hv2 : ver = SpecVersion.v2
              · subst hv2
                simp only [hdc, hdet, bind, Except.bind, if_pos rfl, pure,
                  Except.pure] at h
                cases h
                refine ⟨Or.inr rfl, ?_⟩
                intro sp hsp hv3
                exact absurd hdet (spec_v3_not_v2 parsed sp hsp hv3)
              · cases hsp' : jsGet parsed "spec" with
                | error e =>
                  simp [hdc, hdet, hv2, hsp', bind, Except.bind] at h
                | ok sp0 =>
                  by_cases heq : strictEqStr sp0 specV2Tag = true
                  · simp only [hdc, hdet, bind, Except.bind, if_neg hv2, hsp',
                      heq, pure, Except.pure, if_pos rfl, if_true] at h
                    cases h
                    refine ⟨Or.inr rfl, ?_⟩
                    intro sp hsp hv3
                    rw [hsp'] at hsp
                    cases hsp
                    cases sp0 with
                    | vStr s =>
                      simp [strictEqStr, specV2Tag, specV3Tag] at heq hv3
                      rw [heq] at hv3
                      exact absurd hv3 (by decide)
                    | vUndefined => simp [strictEqStr] at heq
                    | vNull => simp [strictEqStr] at heq
                    | vBool b => simp [strictEqStr] at heq
                    | vNum n => simp [strictEqStr] at heq
                    | vArr es => simp [strictEqStr] at heq
                    | vObj fs => simp [strictEqStr] at heq
                  · have heq' : strictEqStr sp0 specV2Tag = false := by
                      cases hb : strictEqStr sp0 specV2Tag
                      · rfl
                      · exact absurd hb heq
                    simp only [hdc, hdet, bind, Except.bind, if_neg hv2, hsp',
                      heq', pure, Except.pure, if_false, Bool.false_eq_true,
                      ite_false] at h
                    cases h
                    exact ⟨Or.inl rfl, fun _ _ _ => rfl⟩
        · rw [if_neg hkw] at h
          exact ih r h
    · rw [show findChara (ch :: rest) =
        (if ch.name = "tEXt" then
          match textDecode ch.data with
          | .error _ => .error ()
          | .ok (kw, txt) =>
            if kw = "chara" then do
              let parsed ← decodeCardText txt
              let version ← detectCardVersion parsed
              let isV2 ←
                if version = SpecVersion.v2 then pure true
                else do
                  let sp ← jsGet parsed "spec"
                  pure (strictEqStr sp specV2Tag)
              if isV2 then .ok (some { card := parsed, detectedVersion := .v2 })
              else .ok (some { card := parsed, detectedVersion := .v1 })
            else findChara rest
          else findChara rest) from rfl, if_neg hn] at h
      exact ih r h

/-! ## Version detection on the projected wire objects -/

theorem detect_v1proj (d : EditorCardData) :
    detectCardVersion (editorDataToV1 d) = .ok .v1 := rfl

theorem detect_v2proj (d : EditorCardData) :
    detectCardVersion (editorDataToV2 d) = .ok .v2 := rfl

theorem jsGet_v1proj_spec (d : EditorCardData) :
    jsGet (editorDataToV1 d) "spec" = .ok .vUndefined := rfl

/-! ## The splice of the new chunk -/

theorem findIdx_cons_map {α : Type} (p : α → Bool) (c : α) (t : List α) :
    List.findIdx? p (c :: t) =
      if p c then some 0 else (List.findIdx? p t).map (fun i => i + 1) := by
  simp [List.findIdx?]

theorem findIdx_none_splice : ∀ (l : List PngChunk) (x : PngChunk),
    l.findIdx? (fun c => c.name == "IEND") = none →
    l ++ [x] = l.takeWhile (fun c => !(c.name == "IEND")) ++
      x :: l.dropWhile (fun c => !(c.name == "IEND")) := by
  intro l
  induction l with
  | nil => intro x _; rfl
  | cons c t ih =>
    intro x h
    rw [findIdx_cons_map] at h
    by_cases hc : (c.name == "IEND") = true
    · rw [if_pos hc] at h; cases h
    · have hc' : (c.name == "IEND") = false := by
        cases hb : c.name == "IEND"
        · rfl
        · exact absurd hb hc
      rw [if_neg (by simp [hc'])] at h
      cases hf : t.findIdx? (fun c => c.name == "IEND") with
      | some j =>
        rw [hf] at h
        rw [show Option.map (fun i => i + 1) (some j) = some (j + 1) from rfl] at h
        cases h
      | none =>
        simp only [List.takeWhile_cons, List.dropWhile_cons, hc', Bool.not_false,
          if_true]
        rw [show (c :: t) ++ [x] = c :: (t ++ [x]) from rfl, ih x hf]
        rfl

theorem findIdx_some_splice : ∀ (l : List PngChunk) (x : PngChunk) (i : Nat),
    l.findIdx? (fun c => c.name == "IEND") = some i →
    l.take i ++ x :: l.drop i = l.takeWhile (fun c => !(c.name == "IEND")) ++
      x :: l.dropWhile (fun c => !(c.name == "IEND")) := by
  intro l
  induction l with
  | nil => intro x i h; simp [List.findIdx?] at h
  | cons c t ih =>
    intro x i h
    rw [findIdx_cons_map] at h
    by_cases hc : (c.name == "IEND") = true
    · rw [if_pos hc] at h
      cases h
      simp [List.takeWhile_cons, List.dropWhile_cons, hc]
    · have hc' : (c.name == "IEND") = false := by
        cases hb : c.name == "IEND"
        · rfl
        · exact absurd hb hc
      rw [if_neg (by simp [hc'])] at h
      cases hf : t.findIdx? (fun c => c.name == "IEND") with
      | none => rw [hf] at h; cases h
      | some j =>
        rw [hf] at h
        rw [show Option.map (fun i => i + 1) (some j) = some (j + 1) from rfl] at h
        cases h
        simp only [List.take_succ_cons, List.drop_succ_cons, List.takeWhile_cons,
          List.dropWhile_cons, hc', Bool.not_false, if_true]
        rw [show (c :: t.take j) ++ x :: t.drop j = c :: (t.take j ++ x :: t.drop j)
          from rfl, ih x j hf]
        rfl

theorem keep_eq_spec (ch : PngChunk) : keepChunk ch = specKeep ch := by
  by_cases hn : ch.name = "tEXt"
  · cases htd : textDecode ch.data with
    | error e => simp [keepChunk, specKeep, hn, htd]
    | ok p =>
      obtain ⟨kw, txt⟩ := p
      simp [keepChunk, specKeep, hn, htd]
  · cases htd : textDecode ch.data with
    | error e => simp [keepChunk, specKeep, hn, htd]
    | ok p =>
      obtain ⟨kw, txt⟩ := p
      have : (ch.name == "tEXt") = false := by
        simpa using hn
      simp [keepChunk, specKeep, hn, htd, this]

/-! ## The claims -/

/-! ## Lookup structure of the Full data object -/

theorem lookupKey_append (l1 l2 : List (String × JsValue)) (k : String) :
    lookupKey (l1 ++ l2) k =
      match lookupKey l1 k with
      | some v => some v
      | none => lookupKey l2 k := by
  induction l1 with
  | nil => rfl
  | cons p t ih =>
    obtain ⟨k', v⟩ := p
    by_cases h : (k' == k) = true
    · simp [lookupKey, h]
    · have h' : (k' == k) = false := by
        cases hb : k' == k
        · rfl
        · exact absurd hb h
      simp [lookupKey, h', ih]

theorem lookupKey_append_none (l1 l2 : List (String × JsValue)) (k : String)
    (h : lookupKey l1 k = none) : lookupKey (l1 ++ l2) k = lookupKey l2 k := by
  rw [lookupKey_append, h]

theorem lookupKey_ite_append_miss (c : Prop) [Decidable c] (k1 k : String)
    (v : JsValue) (l : List (String × JsValue)) (h : (k1 == k) = false) :
    lookupKey ((if c then [(k1, v)] else []) ++ l) k = lookupKey l k := by
  by_cases hc : c <;> simp [hc, lookupKey, h]

theorem lookupKey_ite_append_hit (c : Prop) [Decidable c] (k : String)
    (v : JsValue) (l : List (String × JsValue))
    (hl : lookupKey l k = none) :
    (lookupKey ((if c then [(k, v)] else []) ++ l) k).isSome = decide c := by
  by_cases hc : c <;> simp [hc, lookupKey, hl]

theorem lookupKey_bite_append_hit (b : Bool) (k : String) (v : JsValue)
    (l : List (String × JsValue)) (hl : lookupKey l k = none) :
    (lookupKey ((if b then [(k, v)] else []) ++ l) k).isSome = b := by
  cases b <;> simp [lookupKey, hl]

theorem lookupKey_date_append_miss (o : Option Int) (key k : String)
    (l : List (String × JsValue)) (h : (key == k) = false) :
    lookupKey ((match o with
      | some n => if n != 0 then [(key, JsValue.vNum n)] else []
      | none => []) ++ l) k = lookupKey l k := by
  rcases o with _ | n
  · rfl
  · by_cases hn : (n != 0) = true <;> simp [hn, lookupKey, h]

theorem lookupKey_date_append_hit (o : Option Int) (key : String)
    (l : List (String × JsValue)) (hl : lookupKey l key = none) :
    (lookupKey ((match o with
      | some n => if n != 0 then [(key, JsValue.vNum n)] else []
      | none => []) ++ l) key).isSome =
      (match o with | some n => n != 0 | none => false) := by
  rcases o with _ | n
  · simpa using congrArg Option.isSome hl
  · by_cases hn : (n != 0) = true <;> simp [hn, lookupKey, hl]

theorem lookupKey_date_miss (o : Option Int) (key k : String)
    (h : (key == k) = false) :
    lookupKey (match o with
      | some n => if n != 0 then [(key, JsValue.vNum n)] else []
      | none => []) k = none := by
  rcases o with _ | n
  · rfl
  · by_cases hn : (n != 0) = true <;> simp [hn, lookupKey, h]

theorem lookupKey_date_hit (o : Option Int) (key : String) :
    (lookupKey (match o with
      | some n => if n != 0 then [(key, JsValue.vNum n)] else []
      | none => []) key).isSome =
      (match o with | some n => n != 0 | none => false) := by
  rcases o with _ | n
  · rfl
  · by_cases hn : (n != 0) = true <;> simp [hn, lookupKey]

theorem decide_bool_true (b : Bool) : decide (b = true) = b := by
  cases b <;> rfl

/-- C7: the Full projection's `data` always carries `group_only_greetings`,
and carries each optional Full field exactly when the editor value is
truthy: a non-empty collection, a non-empty string, a non-zero date.  In
particular a zero date produces no key. -/
theorem claim_v3_omission (d : EditorCardData) :
    (lookupKey (v3DataFields d) "group_only_greetings").isSome = true ∧
    (lookupKey (v3DataFields d) "assets").isSome = decide (d.assets.length > 0) ∧
    (lookupKey (v3DataFields d) "nickname").isSome = (d.nickname != "") ∧
    (lookupKey (v3DataFields d) "creator_notes_multilingual").isSome =
      decide (d.creator_notes_multilingual.length > 0) ∧
    (lookupKey (v3DataFields d) "source").isSome = decide (d.source.length > 0) ∧
    (lookupKey (v3DataFields d) "creation_date").isSome =
      (match d.creation_date with | some n => n != 0 | none => false) ∧
    (lookupKey (v3DataFields d) "modification_date").isSome =
      (match d.modification_date with | some n => n != 0 | none => false) := by
  refine ⟨rfl, ?_, ?_, ?_, ?_, ?_, ?_⟩ <;>
    simp only [v3DataFields, List.append_assoc] <;>
    simp only [lookupKey_append_none, lookupKey_ite_append_miss,
      lookupKey_ite_append_hit, lookupKey_bite_append_hit,
      lookupKey_date_append_miss, lookupKey_date_append_hit,
      lookupKey_date_miss, lookupKey_date_hit, lookupKey,
      String.reduceBEq, Bool.false_eq_true, reduceIte,
      if_false, if_true, Option.isSome_some, Option.isSome_none,
      List.nil_append, List.append_nil, List.append_eq, decide_eq_true_eq, decide_bool_true]

/-! ## The claims about the converters -/

/-- C1 (amended): for documents whose `character_version` is non-empty,
whose `extensions` is an object, and whose dates are not the zero
timestamp, lifting each projection restores exactly the fields that wire
version represents. -/
theorem claim_roundtrip_per_version (d : EditorCardData)
    (hcv : d.character_version ≠ "")
    (hext : isObjectValue d.extensions = true)
    (hcd : d.creation_date ≠ some 0) (hmd : d.modification_date ≠ some 0) :
    cardToEditorData (editorDataToV1 d) = .ok (maskV1 d) ∧
    cardToEditorData (editorDataToV2 d) = .ok (maskV2 d) ∧
    cardToEditorData (editorDataToV3 d) = .ok (maskV3 d) :=
  ⟨lift_proj_v1 d, lift_proj_v2 d hcv hext, lift_proj_v3 d hcv hext hcd hmd⟩

theorem claim_roundtrip_per_version_witness :
    cardToEditorData (editorDataToV1 createEmptyEditorData) =
      .ok (maskV1 createEmptyEditorData) ∧
    cardToEditorData (editorDataToV2 createEmptyEditorData) =
      .ok (maskV2 createEmptyEditorData) ∧
    cardToEditorData (editorDataToV3 createEmptyEditorData) =
      .ok (maskV3 createEmptyEditorData) :=
  claim_roundtrip_per_version createEmptyEditorData (by decide) (by decide)
    (by decide) (by decide)

/-- Counterexample to C1 as stated: the Extended wire schema represents
`character_version` (it is a field of its `data` object), yet a document
whose `character_version` is the empty string comes back with `"1.0"`:
the lift's `|| '1.0'` default fires on the truthy-false empty string. -/
theorem roundtrip_character_version_cex :
    cardToEditorData (editorDataToV2
      { createEmptyEditorData with character_version := "" }) =
      .ok createEmptyEditorData ∧
    ¬(createEmptyEditorData.character_version =
      ({ createEmptyEditorData with character_version := "" } :
        EditorCardData).character_version) :=
  ⟨rfl, by decide⟩

/-- C4 (amended): on every input whose `data` field is not `null`,
`detectCardVersion` returns exactly the specification's five ordered
first-match-wins rules. -/
theorem claim_detect_matches_rules (card : JsValue) (h : noNullDataField card) :
    detectCardVersion card = .ok (detectRules card) :=
  detect_eq_detectRules card h

theorem claim_detect_matches_rules_witness :
    detectCardVersion (.vObj [("spec", .vStr "chara_card_v3"),
      ("data", .vObj [("assets", .vNull)])]) =
      .ok (detectRules (.vObj [("spec", .vStr "chara_card_v3"),
        ("data", .vObj [("assets", .vNull)])])) :=
  claim_detect_matches_rules _ (by simp [noNullDataField, lookupKey])

/-- Counterexample to C4 as stated: on `\x7bdata: null\x7d` the code throws
(`typeof null === 'object'` passes the guard and `'group_only_greetings'
in null` is a `TypeError`) while the five rules yield Legacy. -/
theorem detect_null_data_cex :
    detectCardVersion (.vObj [("data", .vNull)]) = .error () ∧
    detectRules (.vObj [("data", .vNull)]) = .v1 := ⟨rfl, rfl⟩

/-- C5 (amended): detection terminates with one of the three versions on
every input whose `data` field is not `null`. -/
theorem claim_detect_total (card : JsValue) (h : noNullDataField card) :
    ∃ ver, detectCardVersion card = .ok ver :=
  ⟨detectRules card, detect_eq_detectRules card h⟩

theorem claim_detect_total_witness :
    ∃ ver, detectCardVersion (.vObj [("name", .vStr "A"),
      ("data", .vObj [("creator_notes", .vStr "n")])]) = .ok ver :=
  claim_detect_total _ (by simp [noNullDataField, lookupKey])

/-- Counterexample to C5 as stated: detection does not return a version on
every input — an object carrying `data: null` throws. -/
theorem detect_null_data_throw_cex :
    detectCardVersion (.vObj [("name", .vStr "A"), ("data", .vNull)]) =
      .error () := rfl

/-- C9: an object whose `spec` is present but is neither the Extended nor
the Full marker lifts, without throwing, to the all-defaults empty
document. -/
theorem claim_unknown_spec_empty (fields : List (String × JsValue))
    (hs : (lookupKey fields "spec").isSome = true)
    (h2 : strictEqStr ((lookupKey fields "spec").getD .vUndefined)
      specV2Tag = false)
    (h3 : strictEqStr ((lookupKey fields "spec").getD .vUndefined)
      specV3Tag = false) :
    cardToEditorData (.vObj fields) = .ok createEmptyEditorData := by
  simp [cardToEditorData, jsIn, jsGet, any_eq_lookup_isSome, hs, h2, h3, bind,
    Except.bind, pure, Except.pure]

theorem claim_unknown_spec_empty_witness :
    cardToEditorData (.vObj [("spec", .vStr "chara_card_v99")]) =
      .ok createEmptyEditorData :=
  claim_unknown_spec_empty [("spec", .vStr "chara_card_v99")] (by decide)
    (by decide) (by decide)

/-! ## Normalization: rendering agreement, purity, identity on pure values -/

theorem jnormV_vUndefined : jnormV .vUndefined = .vUndefined := rfl

theorem jnormV_vArr (es : List JsValue) :
    jnormV (.vArr es) = .vArr (jnormElems es) := rfl

theorem jnormV_vObj (fs : List (String × JsValue)) :
    jnormV (.vObj fs) = .vObj (jnormMembers fs) := rfl

theorem jnormElems_cons_undef (es : List JsValue) :
    jnormElems (.vUndefined :: es) = .vNull :: jnormElems es := rfl

theorem jnormElems_cons_notu (e : JsValue) (es : List JsValue)
    (h : ¬(e = .vUndefined)) :
    jnormElems (e :: es) = jnormV e :: jnormElems es := by
  cases e with
  | vUndefined => exact absurd rfl h
  | vNull => rfl
  | vBool b => rfl
  | vNum i => rfl
  | vStr s => rfl
  | vArr es2 => rfl
  | vObj fs2 => rfl

theorem jnormMembers_cons_undef (k : String) (fs : List (String × JsValue)) :
    jnormMembers ((k, .vUndefined) :: fs) = jnormMembers fs := rfl

theorem jnormMembers_cons_notu (k : String) (v : JsValue)
    (fs : List (String × JsValue)) (h : ¬(v = .vUndefined)) :
    jnormMembers ((k, v) :: fs) = (k, jnormV v) :: jnormMembers fs := by
  cases v with
  | vUndefined => exact absurd rfl h
  | vNull => rfl
  | vBool b => rfl
  | vNum i => rfl
  | vStr s => rfl
  | vArr es2 => rfl
  | vObj fs2 => rfl

theorem jnorm_spec : ∀ n : Nat,
    (∀ v, jsonSize v ≤ n →
      jsonValueChars (jnormV v) = jsonValueChars v ∧
      (¬(v = .vUndefined) → jsonPureV (jnormV v) = true) ∧
      (jsonPureV v = true → jnormV v = v)) ∧
    (∀ es, jsonESize es ≤ n →
      jsonElemPieces (jnormElems es) = jsonElemPieces es ∧
      jsonPureElems (jnormElems es) = true ∧
      (jsonPureElems es = true → jnormElems es = es)) ∧
    (∀ fs, jsonMSize fs ≤ n →
      jsonMemberPieces (jnormMembers fs) = jsonMemberPieces fs ∧
      jsonPureMembers (jnormMembers fs) = true ∧
      (jsonPureMembers fs = true → jnormMembers fs = fs)) := by
  intro n
  induction n with
  | zero =>
    exact ⟨fun v hs => absurd (le_trans (jsonSize_pos v) hs) (by omega),
      fun es hs => absurd (le_trans (jsonESize_pos es) hs) (by omega),
      fun fs hs => absurd (le_trans (jsonMSize_pos fs) hs) (by omega)⟩
  | succ g ih =>
    obtain ⟨ihV, ihE, ihM⟩ := ih
    refine ⟨?_, ?_, ?_⟩
    · intro v hs
      cases v with
      | vUndefined => exact ⟨rfl, fun h => absurd rfl h, fun _ => rfl⟩
      | vNull => exact ⟨rfl, fun _ => rfl, fun _ => rfl⟩
      | vBool b => exact ⟨rfl, fun _ => rfl, fun _ => rfl⟩
      | vNum i => exact ⟨rfl, fun _ => rfl, fun _ => rfl⟩
      | vStr s => exact ⟨rfl, fun _ => rfl, fun _ => rfl⟩
      | vArr es =>
        obtain ⟨h1, h2, h3⟩ := ihE es (by simp [jsonSize] at hs; omega)
        refine ⟨?_, ?_, ?_⟩
        · simp only [jnormV_vArr, jsonValueChars, h1]
        · intro _
          simpa [jnormV_vArr, jsonPureV] using h2
        · intro hp
          simp only [jsonPureV] at hp
          simp [jnormV_vArr, h3 hp]
      | vObj fs =>
        obtain ⟨h1, h2, h3⟩ := ihM fs (by simp [jsonSize] at hs; omega)
        refine ⟨?_, ?_, ?_⟩
        · simp only [jnormV_vObj, jsonValueChars, h1]
        · intro _
          simpa [jnormV_vObj, jsonPureV] using h2
        · intro hp
          simp only [jsonPureV] at hp
          simp [jnormV_vObj, h3 hp]
    · intro es hsz
      cases es with
      | nil => exact ⟨rfl, rfl, fun _ => rfl⟩
      | cons e es' =>
        have hsv : jsonSize e ≤ g := by
          have := le_max_left (jsonSize e) (jsonESize es')
          simp [jsonESize] at hsz; omega
        have hse : jsonESize es' ≤ g := by
          have := le_max_right (jsonSize e) (jsonESize es')
          simp [jsonESize] at hsz; omega
        obtain ⟨hE1, hE2, hE3⟩ := ihE es' hse
        by_cases he : e = .vUndefined
        · subst he
          refine ⟨?_, ?_, ?_⟩
          · simp [jnormElems_cons_undef, jsonElemPieces, jsonValueChars, hE1]
          · simp [jnormElems_cons_undef, jsonPureElems, jsonPureV, hE2]
          · intro hp
            simp [jsonPureElems, jsonPureV] at hp
        · obtain ⟨hV1, hV2, hV3⟩ := ihV e hsv
          refine ⟨?_, ?_, ?_⟩
          · simp [jnormElems_cons_notu e es' he, jsonElemPieces, hE1, hV1]
          · simp [jnormElems_cons_notu e es' he, jsonPureElems, hE2, hV2 he]
          · intro hp
            simp only [jsonPureElems, Bool.and_eq_true] at hp
            simp [jnormElems_cons_notu e es' he, hE3 hp.2, hV3 hp.1]
    · intro fs hsz
      cases fs with
      | nil => exact ⟨rfl, rfl, fun _ => rfl⟩
      | cons p fs' =>
        obtain ⟨k, v⟩ := p
        have hsv : jsonSize v ≤ g := by
          have := le_max_left (jsonSize v) (jsonMSize fs')
          simp [jsonMSize] at hsz; omega
        have hsf : jsonMSize fs' ≤ g := by
          have := le_max_right (jsonSize v) (jsonMSize fs')
          simp [jsonMSize] at hsz; omega
        obtain ⟨hM1, hM2, hM3⟩ := ihM fs' hsf
        by_cases hu : v = .vUndefined
        · subst hu
          refine ⟨?_, ?_, ?_⟩
          · simp [jnormMembers_cons_undef, jsonMemberPieces, jsonValueChars, hM1]
          · simp [jnormMembers_cons_undef, hM2]
          · intro hp
            simp [jsonPureMembers, jsonPureV] at hp
        · obtain ⟨hV1, hV2, hV3⟩ := ihV v hsv
          obtain ⟨vc, hvc⟩ : ∃ vc, jsonValueChars v = some vc := by
            cases v with
            | vUndefined => exact absurd rfl hu
            | vNull => exact ⟨_, rfl⟩
            | vBool b => exact ⟨_, rfl⟩
            | vNum i => exact ⟨_, rfl⟩
            | vStr s => exact ⟨_, rfl⟩
            | vArr es2 => exact ⟨_, rfl⟩
            | vObj fs2 => exact ⟨_, rfl⟩
          refine ⟨?_, ?_, ?_⟩
          · rw [jnormMembers_cons_notu k v fs' hu]
            simp only [jsonMemberPieces, hV1, hvc, hM1]
          · simp [jnormMembers_cons_notu k v fs' hu, jsonPureMembers, hM2,
              hV2 hu]
          · intro hp
            simp only [jsonPureMembers, Bool.and_eq_true] at hp
            simp [jnormMembers_cons_notu k v fs' hu, hM3 hp.2, hV3 hp.1]

theorem jnormV_chars (v : JsValue) :
    jsonValueChars (jnormV v) = jsonValueChars v :=
  ((jnorm_spec (jsonSize v)).1 v le_rfl).1

theorem jnormV_pure (v : JsValue) (h : ¬(v = .vUndefined)) :
    jsonPureV (jnormV v) = true :=
  ((jnorm_spec (jsonSize v)).1 v le_rfl).2.1 h

theorem jnormV_id (v : JsValue) (h : jsonPureV v = true) : jnormV v = v :=
  ((jnorm_spec (jsonSize v)).1 v le_rfl).2.2 h

theorem jnormElems_id (es : List JsValue) (h : jsonPureElems es = true) :
    jnormElems es = es :=
  ((jnorm_spec (jsonESize es)).2.1 es le_rfl).2.2 h

theorem jnormMembers_id (fs : List (String × JsValue))
    (h : jsonPureMembers fs = true) : jnormMembers fs = fs :=
  ((jnorm_spec (jsonMSize fs)).2.2 fs le_rfl).2.2 h

theorem jnormMembers_cons_pure (k : String) (v : JsValue)
    (fs : List (String × JsValue)) (hp : jsonPureV v = true) :
    jnormMembers ((k, v) :: fs) = (k, v) :: jnormMembers fs := by
  have hu : ¬(v = .vUndefined) := by
    intro h
    subst h
    simp [jsonPureV] at hp
  rw [jnormMembers_cons_notu k v fs hu, jnormV_id v hp]

/-- The embedded-payload decoding recovers the JSON-normal form of any
serialized value (an object is never `undefined`, so the serializer always
produces text). -/
theorem decodeCardText_norm (card : JsValue) (h : ¬(card = .vUndefined)) :
    decodeCardText (btoaBytes (utf8Encode
      ((jsonStringify card).getD "undefined"))) = .ok (jnormV card) := by
  obtain ⟨cs, hcs⟩ : ∃ cs, jsonValueChars card = some cs := by
    cases card with
    | vUndefined => exact absurd rfl h
    | vNull => exact ⟨_, rfl⟩
    | vBool b => exact ⟨_, rfl⟩
    | vNum i => exact ⟨_, rfl⟩
    | vStr s => exact ⟨_, rfl⟩
    | vArr es => exact ⟨_, rfl⟩
    | vObj fs => exact ⟨_, rfl⟩
  have hs : jsonStringify card = some (String.mk (jsonCharsOf card)) := by
    simp [jsonStringify, hcs, jsonCharsOf]
  rw [hs, Option.getD_some]
  have hnchars : jsonCharsOf (jnormV card) = jsonCharsOf card := by
    simp [jsonCharsOf, jnormV_chars]
  have hlt : ∀ b ∈ utf8Encode (String.mk (jsonCharsOf card)), b < 256 :=
    utf8EncodeList_lt (jsonCharsOf card)
  have hb64 : atobBytes (btoaBytes (utf8Encode (String.mk (jsonCharsOf card)))) =
      .ok (utf8Encode (String.mk (jsonCharsOf card))) := by
    show (match b64DecodeChars (b64EncodeChars
        (utf8Encode (String.mk (jsonCharsOf card)))) with
      | some bs => Except.ok bs
      | none => Except.error ()) = _
    rw [b64_roundtrip _ hlt]
  rw [show decodeCardText (btoaBytes (utf8Encode (String.mk (jsonCharsOf card)))) =
      (do
        let bytes ← atobBytes (btoaBytes (utf8Encode (String.mk (jsonCharsOf card))))
        let s ← utf8Decode bytes
        jsonParse s) from rfl,
    hb64]
  show (do
    let s ← utf8Decode (utf8Encode (String.mk (jsonCharsOf card)))
    jsonParse s) = _
  rw [utf8_roundtrip]
  show jsonParse (String.mk (jsonCharsOf card)) = _
  rw [← hnchars, jsonParse_charsOf (jnormV card) (jnormV_pure card h)]

/-! ## Lifting a normalized projection -/

theorem jnormMembers_nil : jnormMembers [] = [] := rfl

theorem jnormMembers_append (A B : List (String × JsValue)) :
    jnormMembers (A ++ B) = jnormMembers A ++ jnormMembers B := by
  induction A with
  | nil => rfl
  | cons p t ih =>
    obtain ⟨k, v⟩ := p
    by_cases hu : v = JsValue.vUndefined
    · subst hu
      rw [List.cons_append, jnormMembers_cons_undef, jnormMembers_cons_undef, ih]
    · rw [List.cons_append, jnormMembers_cons_notu k v _ hu,
        jnormMembers_cons_notu k v _ hu, List.cons_append, ih]

theorem jnormMembers_ite (c : Prop) [Decidable c] (key : String) (v : JsValue)
    (hv : jsonPureV v = true) :
    jnormMembers (if c then [(key, v)] else []) = (if c then [(key, v)] else []) := by
  by_cases hc : c
  · simp only [hc, if_true, jnormMembers_cons_pure key v [] hv, jnormMembers_nil]
  · simp only [hc, if_false, jnormMembers_nil]

theorem jnormMembers_date (o : Option Int) (key : String) :
    jnormMembers (match o with
      | some n => if n != 0 then [(key, JsValue.vNum n)] else []
      | none => []) =
    (match o with
      | some n => if n != 0 then [(key, JsValue.vNum n)] else []
      | none => []) := by
  rcases o with _ | n
  · rfl
  · exact jnormMembers_ite _ key (JsValue.vNum n) rfl

theorem jnormMembers_pure_mid_undef (B1 B2 : List (String × JsValue))
    (key : String) (h1 : jsonPureMembers B1 = true)
    (h2 : jnormMembers B2 = B2) :
    jnormMembers (B1 ++ (key, JsValue.vUndefined) :: B2) = B1 ++ B2 := by
  rw [jnormMembers_append, jnormMembers_id B1 h1, jnormMembers_cons_undef, h2]

theorem jsonPureMembers_append (A B : List (String × JsValue)) :
    jsonPureMembers (A ++ B) = (jsonPureMembers A && jsonPureMembers B) := by
  induction A with
  | nil => simp [jsonPureMembers]
  | cons p t ih =>
    obtain ⟨k, v⟩ := p
    simp [jsonPureMembers, ih, Bool.and_assoc]

theorem jsonPureMembers_ite (c : Prop) [Decidable c] (key : String)
    (v : JsValue) (hv : jsonPureV v = true) :
    jsonPureMembers (if c then [(key, v)] else []) = true := by
  by_cases hc : c <;> simp [hc, jsonPureMembers, hv]

theorem jsonPureMembers_date (o : Option Int) (key : String) :
    jsonPureMembers (match o with
      | some n => if n != 0 then [(key, JsValue.vNum n)] else []
      | none => []) = true := by
  rcases o with _ | n
  · rfl
  · exact jsonPureMembers_ite _ key (JsValue.vNum n) rfl

/-- Dropping an `undefined`-valued member whose key is bound nowhere later
never changes any defaulted property read. -/
theorem lookup_drop_mid_getD (B1 B2 : List (String × JsValue)) (key : String)
    (hB2 : lookupKey B2 key = none) (k : String) :
    (lookupKey (B1 ++ (key, JsValue.vUndefined) :: B2) k).getD JsValue.vUndefined =
    (lookupKey (B1 ++ B2) k).getD JsValue.vUndefined := by
  induction B1 with
  | nil =>
    by_cases h : (key == k) = true
    · have hk : key = k := eq_of_beq h
      subst hk
      simp [lookupKey, hB2]
    · have h' : (key == k) = false := by
        cases hb : key == k
        · rfl
        · exact absurd hb h
      simp [lookupKey, h']
  | cons p t ih =>
    obtain ⟨k', v'⟩ := p
    by_cases h : (k' == k) = true
    · simp [lookupKey, h]
    · have h' : (k' == k) = false := by
        cases hb : k' == k
        · rfl
        · exact absurd hb h
      simp only [List.cons_append, lookupKey, h', Bool.false_eq_true,
        reduceIte, if_false, List.append_eq, ih]

theorem okCb_not_undef (v : JsValue) (h : ¬(v = JsValue.vUndefined))
    (hc : okCb v = true) : jsonPureV v = true := by
  cases v with
  | vUndefined => exact absurd rfl h
  | vNull => exact hc
  | vBool b => exact hc
  | vNum i => exact hc
  | vStr s => exact hc
  | vArr es => exact hc
  | vObj fs => exact hc

/-! ## Congruence of the lift in the data member list -/

theorem lift_v2_congr (ms1 ms2 : List (String × JsValue))
    (h : ∀ k, (lookupKey ms1 k).getD .vUndefined =
      (lookupKey ms2 k).getD .vUndefined) :
    cardToEditorData (.vObj [("spec", .vStr specV2Tag),
      ("spec_version", .vStr "2.0"), ("data", .vObj ms1)]) =
    cardToEditorData (.vObj [("spec", .vStr specV2Tag),
      ("spec_version", .vStr "2.0"), ("data", .vObj ms2)]) := by
  simp only [cardToEditorData, jsIn, jsGet, bind, Except.bind, pure, Except.pure,
    lookupKey, List.any_cons, List.any_nil, strictEqStr, String.reduceBEq,
    String.reduceEq, Bool.or_false, Bool.or_true, Bool.not_true, Bool.false_or,
    Bool.true_or, specV2Tag, specV3Tag, beq_self_eq_true, if_true, if_false,
    ite_true, ite_false, Option.getD_some, reduceIte, Bool.not_false,
    Bool.false_eq_true, Bool.true_eq_false, Option.getD_none, h]

theorem lift_v3_congr (ms1 ms2 : List (String × JsValue))
    (h : ∀ k, (lookupKey ms1 k).getD .vUndefined =
      (lookupKey ms2 k).getD .vUndefined) :
    cardToEditorData (.vObj [("spec", .vStr specV3Tag),
      ("spec_version", .vStr "3.0"), ("data", .vObj ms1)]) =
    cardToEditorData (.vObj [("spec", .vStr specV3Tag),
      ("spec_version", .vStr "3.0"), ("data", .vObj ms2)]) := by
  simp only [cardToEditorData, jsIn, jsGet, bind, Except.bind, pure, Except.pure,
    lookupKey, List.any_cons, List.any_nil, strictEqStr, String.reduceBEq,
    String.reduceEq, Bool.or_false, Bool.or_true, Bool.not_true, Bool.false_or,
    Bool.true_or, specV2Tag, specV3Tag, beq_self_eq_true, if_true, if_false,
    ite_true, ite_false, Option.getD_some, reduceIte, Bool.not_false,
    Bool.false_eq_true, Bool.true_eq_false, Option.getD_none, h]

/-! ## The normalized projections -/

theorem jnorm_v1proj (d : EditorCardData) :
    jnormV (editorDataToV1 d) = editorDataToV1 d := rfl

theorem jnorm_outer_v2 (d : EditorCardData) :
    jnormV (editorDataToV2 d) = JsValue.vObj [("spec", JsValue.vStr specV2Tag),
      ("spec_version", JsValue.vStr "2.0"),
      ("data", JsValue.vObj (jnormMembers (v2DataFields d)))] := rfl

theorem jnorm_outer_v3 (d : EditorCardData) :
    jnormV (editorDataToV3 d) = JsValue.vObj [("spec", JsValue.vStr specV3Tag),
      ("spec_version", JsValue.vStr "3.0"),
      ("data", JsValue.vObj (jnormMembers (v3DataFields d)))] := rfl

theorem detect_norm_v2proj (d : EditorCardData) :
    detectCardVersion (jnormV (editorDataToV2 d)) = .ok .v2 := rfl

/-- Normalizing the Extended projection does not change the lift: either
every serialized field is pure and normalization is the identity, or only
the absent `character_book` member is dropped, which every defaulted
property read treats as `undefined` anyway. -/
theorem lift_jnorm_v2 (d : EditorCardData)
    (he : editorPureFor d .v2 = true) :
    cardToEditorData (jnormV (editorDataToV2 d)) =
    cardToEditorData (editorDataToV2 d) := by
  have he' : (jsonPureElems d.alternate_greetings && jsonPureElems d.tags &&
      jsonPureV d.extensions && okCb d.character_book) = true := he
  simp only [Bool.and_eq_true] at he'
  obtain ⟨⟨⟨hag, htg⟩, hext⟩, hcb⟩ := he'
  by_cases hu : d.character_book = JsValue.vUndefined
  · have hsplit : v2DataFields d =
        [("name", JsValue.vStr d.name), ("description", JsValue.vStr d.description),
         ("personality", JsValue.vStr d.personality),
         ("scenario", JsValue.vStr d.scenario),
         ("first_mes", JsValue.vStr d.first_mes),
         ("mes_example", JsValue.vStr d.mes_example),
         ("creator_notes", JsValue.vStr d.creator_notes),
         ("system_prompt", JsValue.vStr d.system_prompt),
         ("post_history_instructions", JsValue.vStr d.post_history_instructions),
         ("alternate_greetings", JsValue.vArr d.alternate_greetings),
         ("tags", JsValue.vArr d.tags), ("creator", JsValue.vStr d.creator),
         ("character_version", JsValue.vStr d.character_version),
         ("extensions", d.extensions)] ++
          ("character_book", JsValue.vUndefined) :: [] := by
      rw [← hu]
      rfl
    have hms : jnormMembers (v2DataFields d) =
        [("name", JsValue.vStr d.name), ("description", JsValue.vStr d.description),
         ("personality", JsValue.vStr d.personality),
         ("scenario", JsValue.vStr d.scenario),
         ("first_mes", JsValue.vStr d.first_mes),
         ("mes_example", JsValue.vStr d.mes_example),
         ("creator_notes", JsValue.vStr d.creator_notes),
         ("system_prompt", JsValue.vStr d.system_prompt),
         ("post_history_instructions", JsValue.vStr d.post_history_instructions),
         ("alternate_greetings", JsValue.vArr d.alternate_greetings),
         ("tags", JsValue.vArr d.tags), ("creator", JsValue.vStr d.creator),
         ("character_version", JsValue.vStr d.character_version),
         ("extensions", d.extensions)] ++ [] := by
      rw [hsplit]
      exact jnormMembers_pure_mid_undef _ _ _
        (by simp [jsonPureMembers, jsonPureV, hag, htg, hext]) rfl
    rw [jnorm_outer_v2, hms,
      show editorDataToV2 d = JsValue.vObj [("spec", JsValue.vStr specV2Tag),
        ("spec_version", JsValue.vStr "2.0"),
        ("data", JsValue.vObj (v2DataFields d))] from rfl]
    refine lift_v2_congr _ _ (fun k => ?_)
    rw [hsplit]
    exact (lookup_drop_mid_getD _ [] "character_book" rfl k).symm
  · have hpv : jsonPureV d.character_book = true := okCb_not_undef _ hu hcb
    have hpure : jsonPureV (editorDataToV2 d) = true := by
      simp [editorDataToV2, jsonPureV, jsonPureMembers, v2DataFields,
        hag, htg, hext, hpv]
    rw [jnormV_id _ hpure]

/-- Normalizing the Full projection does not change the lift, by the same
two cases as the Extended projection. -/
theorem lift_jnorm_v3 (d : EditorCardData)
    (he : editorPureFor d .v3 = true) :
    cardToEditorData (jnormV (editorDataToV3 d)) =
    cardToEditorData (editorDataToV3 d) := by
  have he' : (jsonPureElems d.alternate_greetings && jsonPureElems d.tags &&
      jsonPureV d.extensions && okCb d.character_book &&
      jsonPureElems d.assets && jsonPureElems d.source &&
      jsonPureElems d.group_only_greetings &&
      jsonPureMembers d.creator_notes_multilingual) = true := he
  simp only [Bool.and_eq_true] at he'
  obtain ⟨⟨⟨⟨⟨⟨⟨hag, htg⟩, hext⟩, hcb⟩, has⟩, hsrc⟩, hgog⟩, hcnm⟩ := he'
  by_cases hu : d.character_book = JsValue.vUndefined
  · have hsplit : v3DataFields d =
        [("name", JsValue.vStr d.name), ("description", JsValue.vStr d.description),
         ("personality", JsValue.vStr d.personality),
         ("scenario", JsValue.vStr d.scenario),
         ("first_mes", JsValue.vStr d.first_mes),
         ("mes_example", JsValue.vStr d.mes_example),
         ("creator_notes", JsValue.vStr d.creator_notes),
         ("system_prompt", JsValue.vStr d.system_prompt),
         ("post_history_instructions", JsValue.vStr d.post_history_instructions),
         ("alternate_greetings", JsValue.vArr d.alternate_greetings),
         ("tags", JsValue.vArr d.tags), ("creator", JsValue.vStr d.creator),
         ("character_version", JsValue.vStr d.character_version),
         ("extensions", d.extensions)] ++
          ("character_book", JsValue.vUndefined) ::
            (("group_only_greetings", JsValue.vArr d.group_only_greetings) ::
              ((if d.assets.length > 0 then [("assets", JsValue.vArr d.assets)] else [])
               ++ (if d.nickname != "" then [("nickname", JsValue.vStr d.nickname)] else [])
               ++ (if d.creator_notes_multilingual.length > 0 then
                     [("creator_notes_multilingual",
                       JsValue.vObj d.creator_notes_multilingual)] else [])
               ++ (if d.source.length > 0 then [("source", JsValue.vArr d.source)] else [])
               ++ (match d.creation_date with
                   | some n => if n != 0 then [("creation_date", JsValue.vNum n)] else []
                   | none => [])
               ++ (match d.modification_date with
                   | some n => if n != 0 then [("modification_date", JsValue.vNum n)] else []
                   | none => []))) := by
      rw [← hu]
      rfl
    have hms : jnormMembers (v3DataFields d) =
        [("name", JsValue.vStr d.name), ("description", JsValue.vStr d.description),
         ("personality", JsValue.vStr d.personality),
         ("scenario", JsValue.vStr d.scenario),
         ("first_mes", JsValue.vStr d.first_mes),
         ("mes_example", JsValue.vStr d.mes_example),
         ("creator_notes", JsValue.vStr d.creator_notes),
         ("system_prompt", JsValue.vStr d.system_prompt),
         ("post_history_instructions", JsValue.vStr d.post_history_instructions),
         ("alternate_greetings", JsValue.vArr d.alternate_greetings),
         ("tags", JsValue.vArr d.tags), ("creator", JsValue.vStr d.creator),
         ("character_version", JsValue.vStr d.character_version),
         ("extensions", d.extensions)] ++
          (("group_only_greetings", JsValue.vArr d.group_only_greetings) ::
            ((if d.assets.length > 0 then [("assets", JsValue.vArr d.assets)] else [])
             ++ (if d.nickname != "" then [("nickname", JsValue.vStr d.nickname)] else [])
             ++ (if d.creator_notes_multilingual.length > 0 then
                   [("creator_notes_multilingual",
                     JsValue.vObj d.creator_notes_multilingual)] else [])
             ++ (if d.source.length > 0 then [("source", JsValue.vArr d.source)] else [])
             ++ (match d.creation_date with
                 | some n => if n != 0 then [("creation_date", JsValue.vNum n)] else []
                 | none => [])
             ++ (match d.modification_date with
                 | some n => if n != 0 then [("modification_date", JsValue.vNum n)] else []
                 | none => []))) := by
      rw [hsplit]
      refine jnormMembers_pure_mid_undef _ _ _
        (by simp [jsonPureMembers, jsonPureV, hag, htg, hext]) ?_
      rw [jnormMembers_cons_notu _ _ _ (by simp),
        show jnormV (JsValue.vArr d.group_only_greetings) =
          JsValue.vArr (jnormElems d.group_only_greetings) from rfl,
        jnormElems_id _ hgog]
      simp only [jnormMembers_append, jnormMembers_ite, jnormMembers_date,
        jsonPureV, has, hsrc, hcnm]
    have hB2 : lookupKey
        (("group_only_greetings", JsValue.vArr d.group_only_greetings) ::
          ((if d.assets.length > 0 then [("assets", JsValue.vArr d.assets)] else [])
           ++ (if d.nickname != "" then [("nickname", JsValue.vStr d.nickname)] else [])
           ++ (if d.creator_notes_multilingual.length > 0 then
                 [("creator_notes_multilingual",
                   JsValue.vObj d.creator_notes_multilingual)] else [])
           ++ (if d.source.length > 0 then [("source", JsValue.vArr d.source)] else [])
           ++ (match d.creation_date with
               | some n => if n != 0 then [("creation_date", JsValue.vNum n)] else []
               | none => [])
           ++ (match d.modification_date with
               | some n => if n != 0 then [("modification_date", JsValue.vNum n)] else []
               | none => []))) "character_book" = none := by
      simp only [lookupKey, String.reduceBEq, Bool.false_eq_true, reduceIte,
        if_false, List.append_assoc, lookupKey_ite_append_miss,
        lookupKey_date_append_miss, lookupKey_date_miss]
    rw [jnorm_outer_v3, hms,
      show editorDataToV3 d = JsValue.vObj [("spec", JsValue.vStr specV3Tag),
        ("spec_version", JsValue.vStr "3.0"),
        ("data", JsValue.vObj (v3DataFields d))] from rfl]
    refine lift_v3_congr _ _ (fun k => ?_)
    rw [hsplit]
    exact (lookup_drop_mid_getD _ _ "character_book" hB2 k).symm
  · have hpv : jsonPureV d.character_book = true := okCb_not_undef _ hu hcb
    have hpure : jsonPureV (editorDataToV3 d) = true := by
      simp only [editorDataToV3, jsonPureV, jsonPureMembers, v3DataFields,
        jsonPureMembers_append, jsonPureMembers_ite, jsonPureMembers_date,
        hag, htg, hext, hpv, hgog, has, hsrc, hcnm,
        List.append_eq, List.nil_append, Bool.and_true, Bool.true_and]
    rw [jnormV_id _ hpure]
/-! ## The claims about the embedding orchestrator -/

theorem mem_of_takeWhile {α : Type} {p : α → Bool} {x : α} :
    ∀ {l : List α}, x ∈ l.takeWhile p → x ∈ l := by
  intro l
  induction l with
  | nil => intro h; simp [List.takeWhile] at h
  | cons c t ih =>
    intro h
    rw [List.takeWhile_cons] at h
    by_cases hc : p c = true
    · rw [if_pos hc] at h
      rcases List.mem_cons.mp h with rfl | h
      · simp
      · simp [ih h]
    · rw [if_neg hc] at h
      simp at h

theorem mem_of_dropWhile {α : Type} {p : α → Bool} {x : α} :
    ∀ {l : List α}, x ∈ l.dropWhile p → x ∈ l := by
  intro l
  induction l with
  | nil => intro h; simp [List.dropWhile] at h
  | cons c t ih =>
    intro h
    rw [List.dropWhile_cons] at h
    by_cases hc : p c = true
    · rw [if_pos hc] at h
      simp [ih h]
    · rw [if_neg hc] at h
      exact h

/-- C8: the chunk list the embedder hands to the writer is the parsed
input list with every decodable `chara`/`ccv3` text chunk removed
(undecodable and non-text chunks kept, in order), and the single new card
chunk inserted before the first `IEND` chunk, or appended when there is
none. -/
theorem claim_embed_chunk_sequence (bytes : List Nat) (d : EditorCardData)
    (v : SpecVersion) (chunks : List PngChunk)
    (hx : extractChunks bytes = some chunks) :
    embedCardInPng bytes d v = .ok (encodeChunks (
      (chunks.filter specKeep).takeWhile (fun c => !(c.name == "IEND")) ++
        cardChunkOf d v ::
          (chunks.filter specKeep).dropWhile (fun c => !(c.name == "IEND")))) := by
  have hkeep : chunks.filter keepChunk = chunks.filter specKeep :=
    List.filter_congr (fun ch _ => keep_eq_spec ch)
  simp only [embedCardInPng, hx, hkeep]
  cases hf : (chunks.filter specKeep).findIdx? (fun c => c.name == "IEND") with
  | none =>
    dsimp only
    rw [findIdx_none_splice _ _ hf]
  | some i =>
    dsimp only
    rw [findIdx_some_splice _ _ i hf]

theorem claim_embed_chunk_sequence_witness :
    embedCardInPng (encodeChunks [{ name := "IHDR", data := [1] },
        { name := "IEND", data := [] }]) createEmptyEditorData .v1 =
      .ok (encodeChunks (
        (([{ name := "IHDR", data := [1] }, { name := "IEND", data := [] }] :
            List PngChunk).filter specKeep).takeWhile
          (fun c => !(c.name == "IEND")) ++
        cardChunkOf createEmptyEditorData .v1 ::
          (([{ name := "IHDR", data := [1] }, { name := "IEND", data := [] }] :
              List PngChunk).filter specKeep).dropWhile
            (fun c => !(c.name == "IEND")))) :=
  claim_embed_chunk_sequence _ createEmptyEditorData .v1 _ (by decide)

/-- The benign-scan fact behind the extraction walks: a chunk kept by the
embed filter, in a stream whose text chunks all decode, is skipped by both
scan loops. -/
theorem filter_keep_benign (chunks : List PngChunk)
    (hdec : ∀ ch ∈ chunks, ch.name = "tEXt" → (textDecode ch.data).isOk = true) :
    ∀ ch ∈ chunks.filter keepChunk, ch.name = "tEXt" →
      ∃ kw txt, textDecode ch.data = .ok (kw, txt) ∧
        ¬(kw = "ccv3") ∧ ¬(kw = "chara") := by
  intro ch hch hn
  have hmem := List.mem_of_mem_filter hch
  have hkeep : keepChunk ch = true := List.of_mem_filter hch
  have hok := hdec ch hmem hn
  cases htd : textDecode ch.data with
  | error e =>
    rw [htd] at hok
    simp [Except.isOk, Except.toBool] at hok
  | ok p =>
    obtain ⟨kw, txt⟩ := p
    rw [keepChunk, if_pos hn, htd] at hkeep
    dsimp only at hkeep
    rw [Bool.and_eq_true] at hkeep
    refine ⟨kw, txt, rfl, ?_, ?_⟩
    · intro hkw
      subst hkw
      simp at hkeep
    · intro hkw
      subst hkw
      simp at hkeep

/-- C2 (amended): embedding into a parseable byte-valued stream whose text
chunks all decode, when the opaque editor fields the chosen projection
serializes are pure JSON (`character_book` may also be absent) and the
card chunk is below the 32-bit length bound, produces an image from which
extraction recovers the JSON-normal form of the projected card — what
`JSON.parse` returns on what `JSON.stringify` wrote — tagged with the
requested version; and that normal form lifts to exactly the same editor
document as the projection itself. -/
theorem claim_embed_extract (bytes : List Nat) (d : EditorCardData)
    (v : SpecVersion) (chunks : List PngChunk)
    (hx : extractChunks bytes = some chunks)
    (hbytes : ∀ b ∈ bytes, b < 256)
    (hdec : ∀ ch ∈ chunks, ch.name = "tEXt" → (textDecode ch.data).isOk = true)
    (he : editorPureFor d v = true)
    (hlen : (cardChunkOf d v).data.length < 4294967296) :
    ∃ out, embedCardInPng bytes d v = .ok out ∧
      extractCardFromPng out =
        some ⟨jnormV (projectForVersion d v).1, v⟩ ∧
      cardToEditorData (jnormV (projectForVersion d v).1) =
        cardToEditorData (projectForVersion d v).1 := by
  have hembed : embedCardInPng bytes d v = .ok (encodeChunks (
      (chunks.filter keepChunk).takeWhile (fun c => !(c.name == "IEND")) ++
        cardChunkOf d v ::
          (chunks.filter keepChunk).dropWhile (fun c => !(c.name == "IEND")))) := by
    simp only [embedCardInPng, hx]
    cases hf : (chunks.filter keepChunk).findIdx? (fun c => c.name == "IEND") with
    | none =>
      dsimp only
      rw [findIdx_none_splice _ _ hf]
    | some i =>
      dsimp only
      rw [findIdx_some_splice _ _ i hf]
  have hWF := extractChunks_WF bytes chunks hbytes hx
  have hcardWF : chunkWF (cardChunkOf d v) := ⟨rfl, hlen⟩
  have hWFnew : ∀ ch ∈
      (chunks.filter keepChunk).takeWhile (fun c => !(c.name == "IEND")) ++
        cardChunkOf d v ::
          (chunks.filter keepChunk).dropWhile (fun c => !(c.name == "IEND")),
      chunkWF ch := by
    intro ch hch
    rcases List.mem_append.mp hch with hch | hch
    · exact hWF ch (List.mem_of_mem_filter (mem_of_takeWhile hch))
    · rcases List.mem_cons.mp hch with rfl | hch
      · exact hcardWF
      · exact hWF ch (List.mem_of_mem_filter (mem_of_dropWhile hch))
  have hx2 : extractChunks (encodeChunks (
      (chunks.filter keepChunk).takeWhile (fun c => !(c.name == "IEND")) ++
        cardChunkOf d v ::
          (chunks.filter keepChunk).dropWhile (fun c => !(c.name == "IEND")))) =
      some ((chunks.filter keepChunk).takeWhile (fun c => !(c.name == "IEND")) ++
        cardChunkOf d v ::
          (chunks.filter keepChunk).dropWhile (fun c => !(c.name == "IEND"))) :=
    extract_encode _ hWFnew
  have hben := filter_keep_benign chunks hdec
  have hbenTW3 : ∀ ch ∈
      (chunks.filter keepChunk).takeWhile (fun c => !(c.name == "IEND")),
      ch.name = "tEXt" →
      ∃ kw txt, textDecode ch.data = .ok (kw, txt) ∧ ¬(kw = "ccv3") :=
    fun ch hch hn =>
      (hben ch (mem_of_takeWhile hch) hn).imp
        (fun kw h => h.imp (fun txt h => ⟨h.1, h.2.1⟩))
  have hbenTWc : ∀ ch ∈
      (chunks.filter keepChunk).takeWhile (fun c => !(c.name == "IEND")),
      ch.name = "tEXt" →
      ∃ kw txt, textDecode ch.data = .ok (kw, txt) ∧ ¬(kw = "chara") :=
    fun ch hch hn =>
      (hben ch (mem_of_takeWhile hch) hn).imp
        (fun kw h => h.imp (fun txt h => ⟨h.1, h.2.2⟩))
  have hbenDW3 : ∀ ch ∈
      (chunks.filter keepChunk).dropWhile (fun c => !(c.name == "IEND")),
      ch.name = "tEXt" →
      ∃ kw txt, textDecode ch.data = .ok (kw, txt) ∧ ¬(kw = "ccv3") :=
    fun ch hch hn =>
      (hben ch (mem_of_dropWhile hch) hn).imp
        (fun kw h => h.imp (fun txt h => ⟨h.1, h.2.1⟩))
  refine ⟨_, hembed, ?_, ?_⟩
  · cases v with
    | v3 =>
      have hcd : textDecode (cardChunkOf d SpecVersion.v3).data =
          .ok ("ccv3", btoaBytes (utf8Encode
            ((jsonStringify (projectForVersion d SpecVersion.v3).1).getD "undefined"))) :=
        textDecode_textEncode "ccv3" _ (by decide)
      have hdc : decodeCardText (btoaBytes (utf8Encode
          ((jsonStringify (projectForVersion d SpecVersion.v3).1).getD "undefined"))) =
          .ok (jnormV (projectForVersion d SpecVersion.v3).1) :=
        decodeCardText_norm _ (by simp [projectForVersion, editorDataToV3])
      have hccv3 : findCcv3
          ((chunks.filter keepChunk).takeWhile (fun c => !(c.name == "IEND")) ++
            cardChunkOf d SpecVersion.v3 ::
              (chunks.filter keepChunk).dropWhile (fun c => !(c.name == "IEND"))) =
          .ok (some (jnormV (projectForVersion d SpecVersion.v3).1)) := by
        rw [findCcv3_walk _ _ hbenTW3]
        exact findCcv3_hit _ _ _ _ rfl hcd hdc
      simp [extractCardFromPng, hx2, hccv3, bind, Except.bind]
    | v1 =>
      have hcd : textDecode (cardChunkOf d SpecVersion.v1).data =
          .ok ("chara", btoaBytes (utf8Encode
            ((jsonStringify (projectForVersion d SpecVersion.v1).1).getD "undefined"))) :=
        textDecode_textEncode "chara" _ (by decide)
      have hdc : decodeCardText (btoaBytes (utf8Encode
          ((jsonStringify (projectForVersion d SpecVersion.v1).1).getD "undefined"))) =
          .ok (jnormV (projectForVersion d SpecVersion.v1).1) :=
        decodeCardText_norm _ (by simp [projectForVersion, editorDataToV1])
      have hver : detectCardVersion (jnormV (projectForVersion d SpecVersion.v1).1) =
          .ok .v1 := by
        rw [show (projectForVersion d SpecVersion.v1).1 = editorDataToV1 d from rfl,
          jnorm_v1proj]
        exact detect_v1proj d
      have hsp : jsGet (jnormV (projectForVersion d SpecVersion.v1).1) "spec" =
          .ok .vUndefined := by
        rw [show (projectForVersion d SpecVersion.v1).1 = editorDataToV1 d from rfl,
          jnorm_v1proj]
        exact jsGet_v1proj_spec d
      have hccv3 : findCcv3
          ((chunks.filter keepChunk).takeWhile (fun c => !(c.name == "IEND")) ++
            cardChunkOf d SpecVersion.v1 ::
              (chunks.filter keepChunk).dropWhile (fun c => !(c.name == "IEND"))) =
          .ok none := by
        rw [findCcv3_walk _ _ hbenTW3,
          findCcv3_skip _ _ (fun _ => ⟨"chara", _, hcd, by decide⟩),
          show (chunks.filter keepChunk).dropWhile (fun c => !(c.name == "IEND")) =
            (chunks.filter keepChunk).dropWhile (fun c => !(c.name == "IEND")) ++ []
            from (List.append_nil _).symm,
          findCcv3_walk _ _ hbenDW3]
        rfl
      have hchara : findChara
          ((chunks.filter keepChunk).takeWhile (fun c => !(c.name == "IEND")) ++
            cardChunkOf d SpecVersion.v1 ::
              (chunks.filter keepChunk).dropWhile (fun c => !(c.name == "IEND"))) =
          .ok (some ⟨jnormV (projectForVersion d SpecVersion.v1).1, SpecVersion.v1⟩) := by
        rw [findChara_walk _ _ hbenTWc]
        exact findChara_hit_v1 _ _ _ _ _ rfl hcd hdc hver hsp rfl
      simp [extractCardFromPng, hx2, hccv3, hchara, bind, Except.bind]
    | v2 =>
      have hcd : textDecode (cardChunkOf d SpecVersion.v2).data =
          .ok ("chara", btoaBytes (utf8Encode
            ((jsonStringify (projectForVersion d SpecVersion.v2).1).getD "undefined"))) :=
        textDecode_textEncode "chara" _ (by decide)
      have hdc : decodeCardText (btoaBytes (utf8Encode
          ((jsonStringify (projectForVersion d SpecVersion.v2).1).getD "undefined"))) =
          .ok (jnormV (projectForVersion d SpecVersion.v2).1) :=
        decodeCardText_norm _ (by simp [projectForVersion, editorDataToV2])
      have hver : detectCardVersion (jnormV (projectForVersion d SpecVersion.v2).1) =
          .ok .v2 := detect_norm_v2proj d
      have hccv3 : findCcv3
          ((chunks.filter keepChunk).takeWhile (fun c => !(c.name == "IEND")) ++
            cardChunkOf d SpecVersion.v2 ::
              (chunks.filter keepChunk).dropWhile (fun c => !(c.name == "IEND"))) =
          .ok none := by
        rw [findCcv3_walk _ _ hbenTW3,
          findCcv3_skip _ _ (fun _ => ⟨"chara", _, hcd, by decide⟩),
          show (chunks.filter keepChunk).dropWhile (fun c => !(c.name == "IEND")) =
            (chunks.filter keepChunk).dropWhile (fun c => !(c.name == "IEND")) ++ []
            from (List.append_nil _).symm,
          findCcv3_walk _ _ hbenDW3]
        rfl
      have hchara : findChara
          ((chunks.filter keepChunk).takeWhile (fun c => !(c.name == "IEND")) ++
            cardChunkOf d SpecVersion.v2 ::
              (chunks.filter keepChunk).dropWhile (fun c => !(c.name == "IEND"))) =
          .ok (some ⟨jnormV (projectForVersion d SpecVersion.v2).1, SpecVersion.v2⟩) := by
        rw [findChara_walk _ _ hbenTWc]
        exact findChara_hit_v2 _ _ _ _ rfl hcd hdc hver
      simp [extractCardFromPng, hx2, hccv3, hchara, bind, Except.bind]
  · cases v with
    | v1 =>
      rw [show (projectForVersion d SpecVersion.v1).1 = editorDataToV1 d from rfl,
        jnorm_v1proj]
    | v2 => exact lift_jnorm_v2 d he
    | v3 => exact lift_jnorm_v3 d he

set_option maxRecDepth 400000 in
theorem claim_embed_extract_witness :
    ∃ out, embedCardInPng (encodeChunks [{ name := "IHDR", data := [1] },
        { name := "IEND", data := [] }]) createEmptyEditorData .v2 = .ok out ∧
      extractCardFromPng out =
        some ⟨jnormV (projectForVersion createEmptyEditorData SpecVersion.v2).1,
          SpecVersion.v2⟩ ∧
      cardToEditorData
          (jnormV (projectForVersion createEmptyEditorData SpecVersion.v2).1) =
        cardToEditorData (projectForVersion createEmptyEditorData SpecVersion.v2).1 :=
  claim_embed_extract _ createEmptyEditorData .v2
    [{ name := "IHDR", data := [1] }, { name := "IEND", data := [] }]
    (by decide) (by decide) (by decide) (by decide) (by decide)

set_option maxRecDepth 100000 in
/-- Counterexample to C2 as stated: a parseable stream may carry a `tEXt`
chunk with no NUL separator; the embedder keeps it, and extraction then
throws on it (returning `null`) before reaching the embedded card. -/
theorem embed_extract_undecodable_cex :
    extractChunks (encodeChunks [{ name := "tEXt", data := [7] }]) =
      some [{ name := "tEXt", data := [7] }] ∧
    ∃ out, embedCardInPng (encodeChunks [{ name := "tEXt", data := [7] }])
        createEmptyEditorData .v1 = .ok out ∧
      extractCardFromPng out = none :=
  ⟨by decide, _, rfl, rfl⟩

/-- C3 (amended): when the stream parses, every text chunk before the
first `ccv3` chunk decodes without a `ccv3` keyword, and the `ccv3`
payload itself decodes, extraction returns that payload tagged Full —
`chara` chunks anywhere in the stream, before or after, are ignored. -/
theorem claim_ccv3_priority (bytes : List Nat) (pre post : List PngChunk)
    (cc : PngChunk) (txt : String) (v : JsValue)
    (hx : extractChunks bytes = some (pre ++ cc :: post))
    (hpre : ∀ ch ∈ pre, ch.name = "tEXt" →
      ∃ kw t, textDecode ch.data = .ok (kw, t) ∧ ¬(kw = "ccv3"))
    (hcc : cc.name = "tEXt")
    (hdec : textDecode cc.data = .ok ("ccv3", txt))
    (hv : decodeCardText txt = .ok v) :
    extractCardFromPng bytes = some { card := v, detectedVersion := .v3 } := by
  have h1 : findCcv3 (pre ++ cc :: post) = .ok (some v) := by
    rw [findCcv3_walk pre _ hpre]
    exact findCcv3_hit cc post txt v hcc hdec hv
  simp [extractCardFromPng, hx, h1, bind, Except.bind]

theorem claim_ccv3_priority_witness :
    extractCardFromPng (encodeChunks
      [textEncode "chara" (btoaBytes (utf8Encode "\x7b\"name\":\"A\"\x7d")),
       textEncode "ccv3" (btoaBytes (utf8Encode "\x7b\"name\":\"B\"\x7d"))]) =
      some { card := .vObj [("name", .vStr "B")], detectedVersion := .v3 } :=
  claim_ccv3_priority _
    [textEncode "chara" (btoaBytes (utf8Encode "\x7b\"name\":\"A\"\x7d"))] []
    (textEncode "ccv3" (btoaBytes (utf8Encode "\x7b\"name\":\"B\"\x7d")))
    (btoaBytes (utf8Encode "\x7b\"name\":\"B\"\x7d"))
    (.vObj [("name", .vStr "B")])
    (by decide)
    (by
      intro ch hch hn
      rw [List.mem_singleton] at hch
      subst hch
      exact ⟨"chara", btoaBytes (utf8Encode "\x7b\"name\":\"A\"\x7d"),
        rfl, by decide⟩)
    rfl rfl rfl

/-- Counterexample to C3 as stated: a stream holding a decodable `chara`
chunk and a decodable `ccv3` chunk, but also an undecodable `tEXt` chunk
ahead of them, extracts to `null`, not to the `ccv3` payload. -/
theorem ccv3_priority_crash_cex :
    extractChunks (encodeChunks [{ name := "tEXt", data := [9] },
      textEncode "chara" (btoaBytes (utf8Encode "\x7b\"name\":\"A\"\x7d")),
      textEncode "ccv3" (btoaBytes (utf8Encode "\x7b\"name\":\"B\"\x7d"))]) =
      some [{ name := "tEXt", data := [9] },
        textEncode "chara" (btoaBytes (utf8Encode "\x7b\"name\":\"A\"\x7d")),
        textEncode "ccv3" (btoaBytes (utf8Encode "\x7b\"name\":\"B\"\x7d"))] ∧
    textDecode (textEncode "chara"
        (btoaBytes (utf8Encode "\x7b\"name\":\"A\"\x7d"))).data =
      .ok ("chara", btoaBytes (utf8Encode "\x7b\"name\":\"A\"\x7d")) ∧
    textDecode (textEncode "ccv3"
        (btoaBytes (utf8Encode "\x7b\"name\":\"B\"\x7d"))).data =
      .ok ("ccv3", btoaBytes (utf8Encode "\x7b\"name\":\"B\"\x7d")) ∧
    extractCardFromPng (encodeChunks [{ name := "tEXt", data := [9] },
      textEncode "chara" (btoaBytes (utf8Encode "\x7b\"name\":\"A\"\x7d")),
      textEncode "ccv3" (btoaBytes (utf8Encode "\x7b\"name\":\"B\"\x7d"))]) =
      none :=
  ⟨by decide, rfl, rfl, rfl⟩

/-- C6: every failure mode of extraction — an unparseable stream, a
throwing first scan, a throwing second scan, or no recognized chunk at
all — yields the same `null`, and extraction never throws (it is total
with an `Option` result). -/
theorem claim_extract_null_uniform (bytes : List Nat) :
    (extractChunks bytes = none → extractCardFromPng bytes = none) ∧
    (∀ chunks, extractChunks bytes = some chunks →
      (findCcv3 chunks = .error () → extractCardFromPng bytes = none) ∧
      (findCcv3 chunks = .ok none → findChara chunks = .error () →
        extractCardFromPng bytes = none) ∧
      (findCcv3 chunks = .ok none → findChara chunks = .ok none →
        extractCardFromPng bytes = none)) := by
  refine ⟨fun h => by simp [extractCardFromPng, h], fun chunks hx => ⟨?_, ?_, ?_⟩⟩
  · intro h
    simp [extractCardFromPng, hx, h, bind, Except.bind]
  · intro h1 h2
    simp [extractCardFromPng, hx, h1, h2, bind, Except.bind]
  · intro h1 h2
    simp [extractCardFromPng, hx, h1, h2, bind, Except.bind]

theorem claim_extract_null_uniform_witness :
    extractCardFromPng [] = none ∧
    extractCardFromPng (encodeChunks [{ name := "tEXt", data := [5] }]) = none ∧
    extractCardFromPng (encodeChunks [textEncode "chara" "!"]) = none ∧
    extractCardFromPng (encodeChunks [{ name := "IHDR", data := [] }]) = none :=
  ⟨(claim_extract_null_uniform []).1 rfl,
    (((claim_extract_null_uniform (encodeChunks
        [{ name := "tEXt", data := [5] }])).2
      [{ name := "tEXt", data := [5] }] (by decide)).1) rfl,
    (((claim_extract_null_uniform (encodeChunks [textEncode "chara" "!"])).2
      [textEncode "chara" "!"] (by decide)).2.1) rfl rfl,
    (((claim_extract_null_uniform (encodeChunks
        [{ name := "IHDR", data := [] }])).2
      [{ name := "IHDR", data := [] }] (by decide)).2.2) rfl rfl⟩

/-- C10: a payload found under the `chara` keyword is never tagged Full:
the result is Legacy or Extended, and a payload whose `spec` is strictly
the Full marker comes back tagged Legacy. -/
theorem claim_chara_never_full (bytes : List Nat) (chunks : List PngChunk)
    (r : ExtractedCard)
    (hx : extractChunks bytes = some chunks)
    (hno : findCcv3 chunks = .ok none)
    (hr : extractCardFromPng bytes = some r) :
    (r.detectedVersion = .v1 ∨ r.detectedVersion = .v2) ∧
    (∀ sp, jsGet r.card "spec" = .ok sp → strictEqStr sp specV3Tag = true →
      r.detectedVersion = .v1) := by
  have hfc : findChara chunks = .ok (some r) := by
    simp only [extractCardFromPng, hx, hno, bind, Except.bind] at hr
    cases hfc : findChara chunks with
    | error e => rw [hfc] at hr; cases hr
    | ok rr =>
      rw [hfc] at hr
      cases rr with
      | none => cases hr
      | some r' => cases hr; rfl
  exact findChara_some chunks r hfc

set_option maxRecDepth 100000 in
theorem claim_chara_never_full_witness :
    ((⟨JsValue.vObj [("spec", JsValue.vStr "chara_card_v3")], SpecVersion.v1⟩ :
        ExtractedCard).detectedVersion = SpecVersion.v1 ∨
      (⟨JsValue.vObj [("spec", JsValue.vStr "chara_card_v3")], SpecVersion.v1⟩ :
        ExtractedCard).detectedVersion = SpecVersion.v2) ∧
    (∀ sp, jsGet (⟨JsValue.vObj [("spec", JsValue.vStr "chara_card_v3")],
        SpecVersion.v1⟩ : ExtractedCard).card "spec" = .ok sp →
      strictEqStr sp specV3Tag = true →
      (⟨JsValue.vObj [("spec", JsValue.vStr "chara_card_v3")], SpecVersion.v1⟩ :
        ExtractedCard).detectedVersion = SpecVersion.v1) :=
  claim_chara_never_full
    (encodeChunks [textEncode "chara"
      (btoaBytes (utf8Encode "\x7b\"spec\":\"chara_card_v3\"\x7d"))])
    [textEncode "chara"
      (btoaBytes (utf8Encode "\x7b\"spec\":\"chara_card_v3\"\x7d"))]
    ⟨JsValue.vObj [("spec", JsValue.vStr "chara_card_v3")], SpecVersion.v1⟩
    (by decide) rfl rfl
